import Mathlib

/-!
Shallow embedding of the kernel-modesetting (KMS) display abstraction of
intel-gpu-tools, together with proofs about its documented behaviour.

The data model (planes, pipes, outputs, display) is translated from the
structures declared in lib/igt_kms.h.  The bodies of the high-level
operations (connector resolution, the two-phase commit engine, the EDID
extension synthesizer) are not part of the source tree, only their
declarations and callers are; those operations are therefore modelled from
the specification, and each such definition is marked with a doc comment
starting with `Modelled from the spec:`.

The two test helpers `lsmod_has_module` (tests/drv_module_reload_basic.c)
and `ms_elapsed` (tests/kms_sysfs_edid_timing.c) are translated directly
from their C sources.
-/

namespace IGT

/-- rotation enum from lib/igt_kms.h (`igt_rotation_t`): one-hot bits
1, 2, 4, 8 for 0, 90, 180, 270 degrees. -/
inductive igt_rotation_t
  | IGT_ROTATION_0
  | IGT_ROTATION_90
  | IGT_ROTATION_180
  | IGT_ROTATION_270
deriving DecidableEq

/-- numeric value of a rotation, as defined by the one-hot enum in
lib/igt_kms.h. -/
def rotationValue : igt_rotation_t → Nat
  | .IGT_ROTATION_0 => 1
  | .IGT_ROTATION_90 => 2
  | .IGT_ROTATION_180 => 4
  | .IGT_ROTATION_270 => 8

/-- plane state, translated from `igt_plane_t` in lib/igt_kms.h.  The
framebuffer pointer is modelled as an optional framebuffer id (the
framebuffer itself is owned externally).  `drm_plane` is represented only
through `index`, which is what the commit calls carry. -/
structure igt_plane_t where
  index : Nat
  is_primary : Bool
  is_cursor : Bool
  fb_changed : Bool
  position_changed : Bool
  panning_changed : Bool
  rotation_changed : Bool
  size_changed : Bool
  fb : Option Nat
  rotation_property : Nat
  crtc_x : Int
  crtc_y : Int
  crtc_w : Int
  crtc_h : Int
  pan_x : Nat
  pan_y : Nat
  rotation : igt_rotation_t
deriving DecidableEq

/-- display mode, the part of `drmModeModeInfo` the verified operations
inspect: resolution plus the DRM_MODE_TYPE_PREFERRED flag. -/
structure drmModeModeInfo where
  hdisplay : Nat
  vdisplay : Nat
  preferred : Bool
deriving DecidableEq

/-- pipe state, translated from `struct igt_pipe` in lib/igt_kms.h (the
back pointer to the display is dropped; the pipe is stored inside its
display). -/
structure igt_pipe where
  pipe : Nat
  enabled : Bool
  planes : List igt_plane_t
  background : Nat
  background_changed : Bool
  background_property : Nat
deriving DecidableEq

/-- result of resolving one connector, translated from
`struct kmstest_connector_config` in lib/igt_kms.h; the three kernel
object pointers are modelled as handles. -/
structure kmstest_connector_config where
  crtc : Nat
  connector : Nat
  encoder : Nat
  default_mode : drmModeModeInfo
  crtc_idx : Nat
  pipe : Nat
deriving DecidableEq

/-- output state, translated from `igt_output_t` in lib/igt_kms.h.  The
embedded `config` struct together with the `valid` flag is modelled as an
option; `valid = true` goes with `config = some _`. -/
structure igt_output_t where
  id : Nat
  name : String
  valid : Bool
  pending_crtc_idx_mask : Nat
  config : Option kmstest_connector_config
  use_override_mode : Bool
  override_mode : drmModeModeInfo
deriving DecidableEq

/-- display state, translated from `struct igt_display` in lib/igt_kms.h
(the drm fd and log_shift are irrelevant to the verified operations;
`n_pipes`/`n_outputs` are the lengths of the two lists). -/
structure igt_display where
  pipes_in_use : Nat
  outputs : List igt_output_t
  pipes : List igt_pipe
  has_universal_planes : Bool
deriving DecidableEq

/-- commit style enum from lib/igt_kms.h. -/
inductive igt_commit_style
  | COMMIT_LEGACY
  | COMMIT_UNIVERSAL
deriving DecidableEq

/-- error kinds of the commit engine and resolver, as enumerated in the
specification's error-handling design; `HardwareRejected code` carries the
kernel error code of a failed driver call. -/
inductive CommitError
  | NotFound
  | NoSuitablePipe
  | NoModeAvailable
  | PlaneNotFound
  | UnsupportedInLegacyMode
  | RotationUnsupported
  | PropertyNotFound
  | HardwareRejected (code : Int)
deriving DecidableEq

/-- one kernel driver call issued by the commit engine, with the payload
the specification attributes to it. -/
inductive DriverCall
  | setCrtc (pipe_idx : Nat) (fb : Option Nat)
  | setCursor (pipe_idx : Nat) (fb : Option Nat)
  | setPlane (pipe_idx : Nat) (plane_idx : Nat) (fb : Option Nat)
      (src_x : Nat) (src_y : Nat)
      (crtc_x : Int) (crtc_y : Int) (crtc_w : Int) (crtc_h : Int)
  | setProperty (prop_id : Nat) (value : Nat)
deriving DecidableEq

/-- connector as reported by the kernel: id, encoder handle, the
encoder's possible-CRTCs bitmask and the mode list. -/
structure Connector where
  id : Nat
  encoder : Nat
  possible_crtcs : Nat
  modes : List drmModeModeInfo
deriving DecidableEq

/-- kernel device as seen by the resolver: the CRTC count from
get-resources and the connector list. -/
structure DrmDevice where
  count_crtcs : Nat
  connectors : List Connector
deriving DecidableEq

/-- Modelled from the spec: the walk inside `kmstest_get_connector_config`
(lib/igt_kms.c, not in the tree): starting at index `i`, scan at most
`fuel` CRTC indices upward and return the first one whose bit is set in
both bitmasks. -/
def findCrtcIdxFrom (possible mask : Nat) : Nat → Nat → Option Nat
  | _, 0 => none
  | i, fuel + 1 =>
    if possible.testBit i && mask.testBit i then some i
    else findCrtcIdxFrom possible mask (i + 1) fuel

/-- Modelled from the spec: picks the lowest-numbered eligible pipe index
(below the device's CRTC count) whose bit is set in both the encoder's
possible-CRTCs mask and the allowed mask. -/
def findCrtcIdx (possible mask count_crtcs : Nat) : Option Nat :=
  findCrtcIdxFrom possible mask 0 count_crtcs

/-- Modelled from the spec: `kmstest_get_connector_default_mode`
(declared in lib/igt_kms.h, body not in the tree): the first mode flagged
preferred, else the first mode of the list, else `NoModeAvailable`. -/
def kmstest_get_connector_default_mode (modes : List drmModeModeInfo) :
    Except CommitError drmModeModeInfo :=
  match modes.find? (fun m => m.preferred) with
  | some m => Except.ok m
  | none =>
    match modes with
    | [] => Except.error CommitError.NoModeAvailable
    | m :: _ => Except.ok m

/-- Modelled from the spec: `kmstest_get_connector_config` (declared in
lib/igt_kms.h, body not in the tree).  Finds the connector, intersects its
encoder possible-CRTCs mask with the allowed CRTC index mask, picks the
lowest eligible pipe index and fetches the default mode.  Fails with
`NoSuitablePipe` when no eligible pipe exists and `NoModeAvailable` when
the connector exposes zero modes. -/
def kmstest_get_connector_config (dev : DrmDevice) (connector_id : Nat)
    (crtc_idx_mask : Nat) : Except CommitError kmstest_connector_config :=
  match dev.connectors.find? (fun c => c.id == connector_id) with
  | none => Except.error CommitError.NotFound
  | some c =>
    match findCrtcIdx c.possible_crtcs crtc_idx_mask dev.count_crtcs with
    | none => Except.error CommitError.NoSuitablePipe
    | some idx =>
      match kmstest_get_connector_default_mode c.modes with
      | Except.error e => Except.error e
      | Except.ok m =>
        Except.ok { crtc := idx, connector := connector_id, encoder := c.encoder,
                    default_mode := m, crtc_idx := idx, pipe := idx }

/-- bitmask difference computed structurally: `maskClearAux fuel a b` is
`a` with the bits of `b` cleared, correct whenever `a ≤ fuel`. -/
def maskClearAux : Nat → Nat → Nat → Nat
  | 0, _, _ => 0
  | fuel + 1, a, b =>
    if a = 0 then 0
    else 2 * maskClearAux fuel (a / 2) (b / 2) +
      (if a % 2 = 1 && b % 2 = 0 then 1 else 0)

/-- bits of `a` minus the bits of `b` (the C expression `a & ~b` on
fixed-width masks). -/
def maskClear (a b : Nat) : Nat := maskClearAux a a b

/-- outcome of a commit step: the driver calls issued in order, the
updated model state (partially updated when an error stopped the step,
matching the in-place mutation of the C code), and the first error if
any (`none` plays the role of the 0 return code). -/
abbrev CResult (α : Type) := List DriverCall × α × Option CommitError

/-- Modelled from the spec: one blocking hardware call.  The oracle `hw`
gives the kernel's reply; 0 is success (then `f` records the state change
the call committed), any other code is surfaced as `HardwareRejected`. -/
def hwCall {α : Type} (hw : DriverCall → Int) (c : DriverCall) (f : α → α)
    (a : α) : CResult α :=
  if hw c = 0 then ([c], f a, none)
  else ([c], a, some (CommitError.HardwareRejected (hw c)))

/-- sequencing of two commit steps: the second runs only when the first
succeeded; traces are concatenated. -/
def candThen {α : Type} (r : CResult α) (f : α → CResult α) : CResult α :=
  match r with
  | (t, a, some e) => (t, a, some e)
  | (t, a, none) =>
    match f a with
    | (t2, a', e) => (t ++ t2, a', e)

/-- sequencing of a commit step over a list, stopping at the first error
and leaving the unprocessed tail unchanged (the in-place iteration of the
C code). -/
def seqC {α : Type} (f : α → CResult α) : List α → CResult (List α)
  | [] => ([], [], none)
  | a :: as =>
    match f a with
    | (t, a', some e) => (t, a' :: as, some e)
    | (t, a', none) =>
      match seqC f as with
      | (t2, as', e) => (t ++ t2, a' :: as', e)

/-- indexed variant of `seqC`, used to walk the pipes in ascending
pipe-index order. -/
def seqCIdx {α : Type} (f : Nat → α → CResult α) : Nat → List α → CResult (List α)
  | _, [] => ([], [], none)
  | i, a :: as =>
    match f i a with
    | (t, a', some e) => (t, a' :: as, some e)
    | (t, a', none) =>
      match seqCIdx f (i + 1) as with
      | (t2, as', e) => (t ++ t2, a' :: as', e)

/-- translated from the inline `igt_plane_supports_rotation` in
lib/igt_kms.h: a plane supports rotation iff its rotation property id is
non-zero. -/
def igt_plane_supports_rotation (p : igt_plane_t) : Bool :=
  p.rotation_property != 0

/-- true when one of the four non-rotation dirty bits of the plane is
set. -/
def planeFieldsDirty (p : igt_plane_t) : Bool :=
  p.fb_changed || p.position_changed || p.panning_changed || p.size_changed

/-- true when any dirty bit of the plane is set. -/
def planeDirty (p : igt_plane_t) : Bool :=
  planeFieldsDirty p || p.rotation_changed

/-- clears the four non-rotation dirty bits of a plane. -/
def clearPlaneFields (p : igt_plane_t) : igt_plane_t :=
  { p with fb_changed := false, position_changed := false,
           panning_changed := false, size_changed := false }

/-- clears all five dirty bits of a plane. -/
def clearPlaneAll (p : igt_plane_t) : igt_plane_t :=
  { p with fb_changed := false, position_changed := false,
           panning_changed := false, size_changed := false,
           rotation_changed := false }

/-- Modelled from the spec: rotation commit of one plane (part of the
commit engine in lib/igt_kms.c, not in the tree).  A dirty rotation is
applied as a property write when the plane supports rotation, and is a
hard `RotationUnsupported` error otherwise; the failed path leaves the
dirty bit untouched. -/
def igt_plane_commit_rotation (hw : DriverCall → Int) (p : igt_plane_t) :
    CResult igt_plane_t :=
  if p.rotation_changed = false then ([], p, none)
  else if igt_plane_supports_rotation p then
    hwCall hw (DriverCall.setProperty p.rotation_property (rotationValue p.rotation))
      (fun q => { q with rotation_changed := false }) p
  else ([], p, some CommitError.RotationUnsupported)

/-- Modelled from the spec: legacy-style commit of one plane.  The
primary plane and mode go through the single legacy set-CRTC call, the
cursor through the legacy cursor call, and any dirty overlay plane is an
`UnsupportedInLegacyMode` error issued without any hardware call. -/
def igt_plane_commit_legacy (hw : DriverCall → Int) (pipe_idx : Nat)
    (p : igt_plane_t) : CResult igt_plane_t :=
  if p.is_primary then
    candThen
      (if planeFieldsDirty p then
         hwCall hw (DriverCall.setCrtc pipe_idx p.fb) clearPlaneFields p
       else ([], p, none))
      (igt_plane_commit_rotation hw)
  else if p.is_cursor then
    candThen
      (if planeFieldsDirty p then
         hwCall hw (DriverCall.setCursor pipe_idx p.fb) clearPlaneFields p
       else ([], p, none))
      (igt_plane_commit_rotation hw)
  else
    if planeDirty p then ([], p, some CommitError.UnsupportedInLegacyMode)
    else ([], p, none)

/-- Modelled from the spec: universal-style commit of one plane; a dirty
plane is programmed through the generic set-plane call carrying its own
src rect (panning offset and size) and dest rect (position and size),
then rotation is handled. -/
def igt_plane_commit_universal (hw : DriverCall → Int) (pipe_idx : Nat)
    (p : igt_plane_t) : CResult igt_plane_t :=
  candThen
    (if planeFieldsDirty p then
       hwCall hw
         (DriverCall.setPlane pipe_idx p.index p.fb p.pan_x p.pan_y
           p.crtc_x p.crtc_y p.crtc_w p.crtc_h)
         clearPlaneFields p
     else ([], p, none))
    (igt_plane_commit_rotation hw)

/-- Modelled from the spec: commit of one plane in the requested style. -/
def igt_plane_commit (hw : DriverCall → Int) (s : igt_commit_style)
    (pipe_idx : Nat) (p : igt_plane_t) : CResult igt_plane_t :=
  match s with
  | igt_commit_style.COMMIT_LEGACY => igt_plane_commit_legacy hw pipe_idx p
  | igt_commit_style.COMMIT_UNIVERSAL => igt_plane_commit_universal hw pipe_idx p

/-- Modelled from the spec: walks the planes of a pipe in order, stopping
at the first error. -/
def igt_pipe_commit_planes (hw : DriverCall → Int) (s : igt_commit_style)
    (pipe_idx : Nat) (pp : igt_pipe) : CResult igt_pipe :=
  match seqC (igt_plane_commit hw s pipe_idx) pp.planes with
  | (t, ps, e) => (t, { pp with planes := ps }, e)

/-- Modelled from the spec: background-color commit of a pipe.  A dirty
background is written through its discovered property id when the pipe
has one, and is silently carried over (a no-op at commit) when the pipe
lacks the property. -/
def igt_pipe_commit_background (hw : DriverCall → Int) (pp : igt_pipe) :
    CResult igt_pipe :=
  if pp.background_changed && (pp.background_property != 0) then
    hwCall hw (DriverCall.setProperty pp.background_property pp.background)
      (fun q => { q with background_changed := false }) pp
  else ([], pp, none)

/-- Modelled from the spec: commit of one in-use pipe.  In universal
style the mode/connector association is set first through the legacy CRTC
call carrying a null framebuffer (issued only when the pipe has something
dirty to program); then the planes are walked, then the background. -/
def igt_pipe_commit (hw : DriverCall → Int) (s : igt_commit_style)
    (pipe_idx : Nat) (pp : igt_pipe) : CResult igt_pipe :=
  candThen
    (candThen
      (match s with
       | igt_commit_style.COMMIT_UNIVERSAL =>
         if pp.planes.any planeDirty then
           hwCall hw (DriverCall.setCrtc pipe_idx none) id pp
         else ([], pp, none)
       | igt_commit_style.COMMIT_LEGACY => ([], pp, none))
      (igt_pipe_commit_planes hw s pipe_idx))
    (igt_pipe_commit_background hw)

/-- Modelled from the spec: phase 2 of commit, the hardware-programming
phase.  Walks every in-use pipe in ascending pipe-index order and stops
issuing calls at the first error. -/
def igt_display_commit_pipes (hw : DriverCall → Int) (s : igt_commit_style)
    (d : igt_display) : CResult igt_display :=
  match seqCIdx
      (fun i p =>
        if d.pipes_in_use.testBit i then igt_pipe_commit hw s i p
        else ([], p, none))
      0 d.pipes with
  | (t, ps, e) => (t, { d with pipes := ps }, e)

/-- Modelled from the spec: resolution of one output during phase 1 of
commit.  An output that is already valid or has no pending candidate mask
is skipped; otherwise the Connector Resolver runs on the candidate mask
with the in-use pipes removed, the output becomes valid and its pipe is
marked in-use. -/
def igt_output_resolve (dev : DrmDevice) (in_use : Nat) (o : igt_output_t) :
    Except CommitError (igt_output_t × Nat) :=
  if o.valid || o.pending_crtc_idx_mask == 0 then Except.ok (o, in_use)
  else
    match kmstest_get_connector_config dev o.id
        (maskClear o.pending_crtc_idx_mask in_use) with
    | Except.error e => Except.error e
    | Except.ok cfg =>
      Except.ok ({ o with valid := true, config := some cfg },
                 in_use ||| 2 ^ cfg.pipe)

/-- Modelled from the spec: resolution of all outputs in order, threading
the in-use pipe bitmask and failing fast on the first resolver error. -/
def igt_display_resolve_outputs (dev : DrmDevice) (in_use : Nat) :
    List igt_output_t → Except CommitError (List igt_output_t × Nat)
  | [] => Except.ok ([], in_use)
  | o :: os =>
    match igt_output_resolve dev in_use o with
    | Except.error e => Except.error e
    | Except.ok (o', u') =>
      match igt_display_resolve_outputs dev u' os with
      | Except.error e => Except.error e
      | Except.ok (os', u'') => Except.ok (o' :: os', u'')

/-- Modelled from the spec: phase 1 of commit (the counterpart of
`igt_display_refresh` in lib/igt_kms.c, not in the tree): resolve every
output with a pending pipe assignment, aborting the whole commit before
any hardware mutation on the first resolution error. -/
def igt_display_refresh (dev : DrmDevice) (d : igt_display) :
    Except CommitError igt_display :=
  match igt_display_resolve_outputs dev d.pipes_in_use d.outputs with
  | Except.error e => Except.error e
  | Except.ok (os, u) => Except.ok { d with outputs := os, pipes_in_use := u }

/-- Modelled from the spec: `igt_display_try_commit2` (declared in
lib/igt_kms.h, body not in the tree).  Phase 1 resolves outputs and
aborts with the display untouched on a resolution error; phase 2 programs
the hardware.  A `none` error component plays the role of the 0 return
code, and the non-try `igt_display_commit2` is this followed by the
external fatal-failure collaborator on a non-zero code. -/
def igt_display_try_commit2 (hw : DriverCall → Int) (dev : DrmDevice)
    (d : igt_display) (s : igt_commit_style) : CResult igt_display :=
  match igt_display_refresh dev d with
  | Except.error e => ([], d, some e)
  | Except.ok d1 => igt_display_commit_pipes hw s d1

/-- translated from the spec's mutator description of `igt_plane_set_fb`
(lib/igt_kms.h): record the framebuffer and set the dirty bit, no
hardware access. -/
def igt_plane_set_fb (p : igt_plane_t) (fb : Option Nat) : igt_plane_t :=
  { p with fb := fb, fb_changed := true }

/-- translated from the spec's mutator description of
`igt_plane_set_position`. -/
def igt_plane_set_position (p : igt_plane_t) (x y : Int) : igt_plane_t :=
  { p with crtc_x := x, crtc_y := y, position_changed := true }

/-- translated from the spec's mutator description of
`igt_plane_set_size`. -/
def igt_plane_set_size (p : igt_plane_t) (w h : Int) : igt_plane_t :=
  { p with crtc_w := w, crtc_h := h, size_changed := true }

/-- translated from the spec's mutator description of
`igt_plane_set_panning`. -/
def igt_plane_set_panning (p : igt_plane_t) (x y : Nat) : igt_plane_t :=
  { p with pan_x := x, pan_y := y, panning_changed := true }

/-- translated from the spec's mutator description of
`igt_plane_set_rotation`: the buffered rotation value is stored and the
rotation dirty bit is set; no hardware access occurs. -/
def igt_plane_set_rotation (p : igt_plane_t) (r : igt_rotation_t) : igt_plane_t :=
  { p with rotation := r, rotation_changed := true }

/-- translated from the spec's mutator description of
`igt_crtc_set_background`. -/
def igt_crtc_set_background (pp : igt_pipe) (background : Nat) : igt_pipe :=
  { pp with background := background, background_changed := true }

/-- expected state of one pipe after a fully successful commit: every
plane dirty bit cleared; the background dirty bit cleared exactly when
the pipe has a background property (otherwise the silent no-op keeps
it). -/
def cleanPipe (pp : igt_pipe) : igt_pipe :=
  { pp with planes := pp.planes.map clearPlaneAll,
            background_changed :=
              pp.background_changed && (pp.background_property == 0) }

/-- expected pipe list after a fully successful commit starting at pipe
index `i`: in-use pipes are cleaned, the others are untouched. -/
def cleanPipesFrom (in_use : Nat) : Nat → List igt_pipe → List igt_pipe
  | _, [] => []
  | i, p :: ps =>
    (if in_use.testBit i then cleanPipe p else p) ::
      cleanPipesFrom in_use (i + 1) ps

/-- predicate: every driver call of the trace was answered with the 0
success code. -/
def allOk (hw : DriverCall → Int) (t : List DriverCall) : Prop :=
  ∀ c ∈ t, hw c = 0

/-- well-formed outcome of a commit step with respect to the hardware
oracle: on a `HardwareRejected` outcome the trace is a successful prefix
followed by exactly the one failing call whose code is returned, and on
any other outcome every issued call succeeded. -/
def GoodRun {α : Type} (hw : DriverCall → Int) (r : CResult α) : Prop :=
  match r with
  | (t, _, some (CommitError.HardwareRejected e)) =>
    ∃ t0 c, t = t0 ++ [c] ∧ allOk hw t0 ∧ hw c = e ∧ e ≠ 0
  | (t, _, _) => allOk hw t

/-- recognizer for the universal per-plane call, the only driver call that
can program an overlay plane. -/
def isSetPlaneCall : DriverCall → Bool
  | DriverCall.setPlane _ _ _ _ _ _ _ _ _ => true
  | _ => false

/-- overlay planes are the ones that are neither primary nor cursor. -/
def isOverlay (p : igt_plane_t) : Bool :=
  !p.is_primary && !p.is_cursor

/-- pipe with no dirty plane bit and whose background either is clean or
cannot be committed for lack of a property: committing such a pipe is a
no-op. -/
def quiescentPipe (pp : igt_pipe) : Prop :=
  (∀ q ∈ pp.planes, planeDirty q = false) ∧
  (pp.background_changed = true → pp.background_property = 0)

/-- display in which no plane or pipe dirty bit at an in-use pipe can
cause hardware programming. -/
def quiescentDisplay (d : igt_display) : Prop :=
  ∀ pp ∈ d.pipes, quiescentPipe pp

/-- display in which no plane or pipe dirty bit is set at all. -/
def cleanDisplay (d : igt_display) : Prop :=
  ∀ pp ∈ d.pipes, (∀ q ∈ pp.planes, planeDirty q = false) ∧
    pp.background_changed = false

/-- display whose outputs all went through resolution already (valid) or
request nothing (empty pending mask). -/
def resolvedDisplay (d : igt_display) : Prop :=
  ∀ o ∈ d.outputs, o.valid = true ∨ o.pending_crtc_idx_mask = 0

/-- relation between two outputs stating they never claim the same pipe
while both valid. -/
def distinctPipes (o1 o2 : igt_output_t) : Prop :=
  o1.valid = true → o2.valid = true →
  ∀ c1 c2, o1.config = some c1 → o2.config = some c2 → c1.pipe ≠ c2.pipe

/-- invariant of the display model: every valid output holds a pipe that
is marked in the in-use bitmask, and no two outputs hold the same pipe. -/
def DisplayInv (d : igt_display) : Prop :=
  (∀ o ∈ d.outputs, o.valid = true →
    ∃ cfg, o.config = some cfg ∧ d.pipes_in_use.testBit cfg.pipe = true) ∧
  List.Pairwise distinctPipes d.outputs

/-- EDID block length from lib/igt_kms.h. -/
def EDID_LENGTH : Nat := 128

/-- Modelled from the spec: the EDID synthesizer behind
`kmstest_edid_add_3d` and its 4K/audio siblings (declared in
lib/igt_kms.h and called by tests/kms_hdmi_inject.c; bodies not in the
tree).  Copies the 128-byte base block, rewrites its extension-count
byte 126 and checksum byte 127 (so that the base block sums to 0 mod
256), and appends the given 128-byte extension blocks.  The extension
block contents (stereo-3D, 4K mode, audio capability) are opaque CEA-861
payloads and are passed in as data. -/
def add_extension (base : List Nat) (exts : List (List Nat)) : List Nat :=
  let withCount := base.set 126 ((base.getD 126 0 + exts.length) % 256)
  let body := withCount.take 127
  let checksum := (256 - body.sum % 256) % 256
  body ++ [checksum] ++ exts.flatten

/-- case-insensitive comparison of the first `strlen kmod_name`
characters, translated from the C condition
`!strncasecmp(kmod_name, mod_name, strlen(kmod_name))` in
tests/drv_module_reload_basic.c. -/
def kmod_name_matches (kmod_name mod_name : String) : Bool :=
  kmod_name.toList.map Char.toLower ==
    (mod_name.toList.take kmod_name.length).map Char.toLower

/-- translated from the loop of `lsmod_has_module` in
tests/drv_module_reload_basic.c: walk the loaded-module list, break on
the first name match, and fall through to `return true` in either case
(the loop's outcome does not influence the returned value). -/
def lsmod_scan (mod_name : String) : List String → Bool
  | [] => true
  | kmod_name :: rest =>
    if kmod_name_matches kmod_name mod_name then true
    else lsmod_scan mod_name rest

/-- translated from `lsmod_has_module` in tests/drv_module_reload_basic.c.
The argument is the loaded-module list reported by libkmod, `none` when
`kmod_module_new_from_loaded` fails (the only path returning false). -/
def lsmod_has_module (loaded : Option (List String)) (mod_name : String) : Bool :=
  match loaded with
  | none => false
  | some list => lsmod_scan mod_name list

/-- outcome of the `reload` helper of tests/drv_module_reload_basic.c,
standing for IGT_EXIT_SUCCESS, IGT_EXIT_FAILURE and IGT_EXIT_SKIP. -/
inductive ReloadResult
  | success
  | failure
  | skip
deriving DecidableEq

/-- translated from the check in `reload` (tests/drv_module_reload_basic.c)
that runs right after `rmmod("i915", false)` succeeded: if
`lsmod_has_module("i915")` reports the module as still loaded the
function returns IGT_EXIT_FAILURE, otherwise it proceeds (success here).
The argument is the loaded-module list at that point. -/
def reload_check_after_rmmod (loaded : Option (List String)) : ReloadResult :=
  if lsmod_has_module loaded "i915" then ReloadResult.failure
  else ReloadResult.success

/-- millisecond constant from tests/kms_sysfs_edid_timing.c. -/
def MSEC_PER_SEC : Nat := 1000

/-- microsecond constant from tests/kms_sysfs_edid_timing.c. -/
def USEC_PER_SEC : Nat := 1000 * MSEC_PER_SEC

/-- nanosecond constant from tests/kms_sysfs_edid_timing.c. -/
def NSEC_PER_SEC : Nat := 1000 * USEC_PER_SEC

/-- timespec as used by `ms_elapsed`: signed seconds and nanoseconds. -/
structure timespec where
  tv_sec : Int
  tv_nsec : Int
deriving DecidableEq

/-- translated from `ms_elapsed` in tests/kms_sysfs_edid_timing.c: the
signed difference `NSEC_PER_SEC * (end.tv_sec - start.tv_sec) +
(end.tv_nsec - start.tv_nsec)` is converted to `uint64_t` (reduction
modulo 2^64) and divided by USEC_PER_SEC. -/
def ms_elapsed (start stop : timespec) : Nat :=
  (((NSEC_PER_SEC : Int) * (stop.tv_sec - start.tv_sec) +
      (stop.tv_nsec - start.tv_nsec)) % (2 ^ 64 : Int)).toNat / USEC_PER_SEC

/-- ordering of timespec values as the claim uses it: the start time is
not after the end time. -/
def timespecLE (a b : timespec) : Prop :=
  a.tv_sec < b.tv_sec ∨ (a.tv_sec = b.tv_sec ∧ a.tv_nsec ≤ b.tv_nsec)

/-- normalized timespec: the nanosecond field lies in [0, 10^9). -/
def timespecNormalized (a : timespec) : Prop :=
  0 ≤ a.tv_nsec ∧ a.tv_nsec < (NSEC_PER_SEC : Int)

/-- bit-level characterization of the structural mask difference. -/
theorem maskClearAux_testBit (fuel : Nat) :
    ∀ a b i, a ≤ fuel →
      (maskClearAux fuel a b).testBit i = (a.testBit i && !(b.testBit i)) := by
  induction fuel with
  | zero =>
    intro a b i ha
    interval_cases a
    simp [maskClearAux]
  | succ fuel ih =>
    intro a b i ha
    by_cases h0 : a = 0
    · simp [maskClearAux, h0]
    · have hdiv : a / 2 ≤ fuel := by omega
      have hmod2 : a % 2 = 0 ∨ a % 2 = 1 := Nat.mod_two_eq_zero_or_one a
      have hbmod2 : b % 2 = 0 ∨ b % 2 = 1 := Nat.mod_two_eq_zero_or_one b
      cases i with
      | zero =>
        simp only [maskClearAux, h0, if_false, Nat.testBit_zero]
        rcases hmod2 with h1 | h1 <;> rcases hbmod2 with h2 | h2 <;>
          simp [h1, h2] <;> omega
      | succ i =>
        simp only [maskClearAux, h0, if_false, Nat.testBit_add_one]
        have harith :
            (2 * maskClearAux fuel (a / 2) (b / 2) +
              (if a % 2 = 1 && b % 2 = 0 then 1 else 0)) / 2 =
            maskClearAux fuel (a / 2) (b / 2) := by
          rcases hmod2 with h1 | h1 <;> rcases hbmod2 with h2 | h2 <;>
            simp [h1, h2] <;> omega
        rw [harith, ih (a / 2) (b / 2) i hdiv]

/-- bit-level characterization of `maskClear`: exactly the bits of `a`
that are not bits of `b`. -/
theorem maskClear_testBit (a b i : Nat) :
    (maskClear a b).testBit i = (a.testBit i && !(b.testBit i)) :=
  maskClearAux_testBit a a b i (Nat.le_refl a)

/-- a successful CRTC-index search returns an index in range whose bit is
set in both masks, and no smaller index at or after the start is set in
both. -/
theorem findCrtcIdxFrom_some (possible mask : Nat) :
    ∀ fuel i j, findCrtcIdxFrom possible mask i fuel = some j →
      possible.testBit j = true ∧ mask.testBit j = true ∧
      i ≤ j ∧ j < i + fuel ∧
      ∀ k, i ≤ k → k < j →
        ¬(possible.testBit k = true ∧ mask.testBit k = true) := by
  intro fuel
  induction fuel with
  | zero => intro i j h; simp [findCrtcIdxFrom] at h
  | succ fuel ih =>
    intro i j h
    simp only [findCrtcIdxFrom] at h
    by_cases hb : possible.testBit i && mask.testBit i
    · rw [if_pos hb] at h
      cases h
      simp only [Bool.and_eq_true] at hb
      exact ⟨hb.1, hb.2, Nat.le_refl _, by omega, fun k hk1 hk2 => by omega⟩
    · rw [if_neg hb] at h
      obtain ⟨h1, h2, h3, h4, h5⟩ := ih (i + 1) j h
      refine ⟨h1, h2, by omega, by omega, ?_⟩
      intro k hk1 hk2 hk
      rcases Nat.eq_or_lt_of_le hk1 with rfl | hlt
      · rw [hk.1, hk.2] at hb; simp at hb
      · exact h5 k hlt hk2 hk

/-- a failed CRTC-index search means no index in the scanned range has
its bit set in both masks. -/
theorem findCrtcIdxFrom_none (possible mask : Nat) :
    ∀ fuel i, findCrtcIdxFrom possible mask i fuel = none →
      ∀ k, i ≤ k → k < i + fuel →
        ¬(possible.testBit k = true ∧ mask.testBit k = true) := by
  intro fuel
  induction fuel with
  | zero => intro i _ k hk1 hk2; omega
  | succ fuel ih =>
    intro i h k hk1 hk2 hk
    simp only [findCrtcIdxFrom] at h
    by_cases hb : possible.testBit i && mask.testBit i
    · rw [if_pos hb] at h; cases h
    · rw [if_neg hb] at h
      rcases Nat.eq_or_lt_of_le hk1 with rfl | hlt
      · rw [hk.1, hk.2] at hb; simp at hb
      · exact ih (i + 1) h k hlt (by omega) hk

/-- the empty trace satisfies `allOk`. -/
theorem allOk_nil (hw : DriverCall → Int) : allOk hw [] := by
  intro c hc; cases hc

/-- `allOk` distributes over concatenation. -/
theorem allOk_append {hw : DriverCall → Int} {t1 t2 : List DriverCall}
    (h1 : allOk hw t1) (h2 : allOk hw t2) : allOk hw (t1 ++ t2) := by
  intro c hc
  rcases List.mem_append.1 hc with h | h
  · exact h1 c h
  · exact h2 c h

/-- a pure step (no calls, no error) is a good run. -/
theorem goodRun_pure {α : Type} (hw : DriverCall → Int) (a : α) :
    GoodRun hw ([], a, none) := allOk_nil hw

/-- a model error raised without issuing calls is a good run. -/
theorem goodRun_modelError {α : Type} (hw : DriverCall → Int) (a : α)
    (e : CommitError) (he : ∀ code, e ≠ CommitError.HardwareRejected code) :
    GoodRun hw ([], a, some e) := by
  unfold GoodRun
  cases e with
  | HardwareRejected code => exact absurd rfl (he code)
  | _ => exact allOk_nil hw

/-- a single hardware call is a good run. -/
theorem goodRun_hwCall {α : Type} (hw : DriverCall → Int) (c : DriverCall)
    (f : α → α) (a : α) : GoodRun hw (hwCall hw c f a) := by
  unfold hwCall
  by_cases h : hw c = 0
  · rw [if_pos h]
    intro c' hc'
    rcases List.mem_singleton.1 hc' with rfl
    exact h
  · rw [if_neg h]
    exact ⟨[], c, rfl, allOk_nil hw, rfl, h⟩

/-- sequencing preserves good runs. -/
theorem goodRun_candThen {α : Type} {hw : DriverCall → Int} {r : CResult α}
    {f : α → CResult α} (hr : GoodRun hw r) (hf : ∀ a, GoodRun hw (f a)) :
    GoodRun hw (candThen r f) := by
  obtain ⟨t, a, e⟩ := r
  cases e with
  | some err => exact hr
  | none =>
    have hfa := hf a
    rcases h' : f a with ⟨t2, a', e'⟩
    rw [h'] at hfa
    simp only [candThen, h']
    cases e' with
    | none => exact allOk_append hr hfa
    | some err =>
      cases err with
      | HardwareRejected code =>
        obtain ⟨t0, c, ht, h0, hc, hne⟩ := hfa
        exact ⟨t ++ t0, c, by rw [ht, List.append_assoc], allOk_append hr h0, hc, hne⟩
      | NotFound => exact allOk_append hr hfa
      | NoSuitablePipe => exact allOk_append hr hfa
      | NoModeAvailable => exact allOk_append hr hfa
      | PlaneNotFound => exact allOk_append hr hfa
      | UnsupportedInLegacyMode => exact allOk_append hr hfa
      | RotationUnsupported => exact allOk_append hr hfa
      | PropertyNotFound => exact allOk_append hr hfa

/-- iterating a good-run step over a list is a good run. -/
theorem goodRun_seqC {α : Type} {hw : DriverCall → Int} {f : α → CResult α}
    (hf : ∀ a, GoodRun hw (f a)) : ∀ as, GoodRun hw (seqC f as) := by
  intro as
  induction as with
  | nil => exact goodRun_pure hw []
  | cons a as ih =>
    have hfa := hf a
    rcases h' : f a with ⟨t, a', e⟩
    rw [h'] at hfa
    simp only [seqC, h']
    cases e with
    | some err => cases err
                  all_goals exact hfa
    | none =>
      rcases h2 : seqC f as with ⟨t2, as', e2⟩
      rw [h2] at ih
      cases e2 with
      | none => exact allOk_append hfa ih
      | some err =>
        cases err with
        | HardwareRejected code =>
          obtain ⟨t0, c, ht, h0, hc, hne⟩ := ih
          exact ⟨t ++ t0, c, by rw [ht, List.append_assoc], allOk_append hfa h0, hc, hne⟩
        | NotFound => exact allOk_append hfa ih
        | NoSuitablePipe => exact allOk_append hfa ih
        | NoModeAvailable => exact allOk_append hfa ih
        | PlaneNotFound => exact allOk_append hfa ih
        | UnsupportedInLegacyMode => exact allOk_append hfa ih
        | RotationUnsupported => exact allOk_append hfa ih
        | PropertyNotFound => exact allOk_append hfa ih

/-- iterating a good-run indexed step over a list is a good run. -/
theorem goodRun_seqCIdx {α : Type} {hw : DriverCall → Int}
    {f : Nat → α → CResult α} (hf : ∀ i a, GoodRun hw (f i a)) :
    ∀ as i, GoodRun hw (seqCIdx f i as) := by
  intro as
  induction as with
  | nil => intro i; exact goodRun_pure hw []
  | cons a as ih =>
    intro i
    have hfa := hf i a
    rcases h' : f i a with ⟨t, a', e⟩
    rw [h'] at hfa
    simp only [seqCIdx, h']
    cases e with
    | some err => cases err
                  all_goals exact hfa
    | none =>
      have ihs := ih (i + 1)
      rcases h2 : seqCIdx f (i + 1) as with ⟨t2, as', e2⟩
      rw [h2] at ihs
      cases e2 with
      | none => exact allOk_append hfa ihs
      | some err =>
        cases err with
        | HardwareRejected code =>
          obtain ⟨t0, c, ht, h0, hc, hne⟩ := ihs
          exact ⟨t ++ t0, c, by rw [ht, List.append_assoc], allOk_append hfa h0, hc, hne⟩
        | NotFound => exact allOk_append hfa ihs
        | NoSuitablePipe => exact allOk_append hfa ihs
        | NoModeAvailable => exact allOk_append hfa ihs
        | PlaneNotFound => exact allOk_append hfa ihs
        | UnsupportedInLegacyMode => exact allOk_append hfa ihs
        | RotationUnsupported => exact allOk_append hfa ihs
        | PropertyNotFound => exact allOk_append hfa ihs

/-- characterization of a successful hardware call. -/
theorem hwCall_ok {α : Type} {hw : DriverCall → Int} {c : DriverCall}
    {f : α → α} {a : α} {t : List DriverCall} {a' : α}
    (h : hwCall hw c f a = (t, a', none)) :
    a' = f a ∧ t = [c] ∧ hw c = 0 := by
  unfold hwCall at h
  by_cases h0 : hw c = 0
  · rw [if_pos h0] at h
    simp only [Prod.mk.injEq] at h
    exact ⟨h.2.1.symm, h.1.symm, h0⟩
  · rw [if_neg h0] at h
    simp only [Prod.mk.injEq] at h
    exact absurd h.2.2 (by simp)

/-- characterization of a failed hardware call: the error carries the
reply code, the state is unchanged, the trace holds the one call. -/
theorem hwCall_error {α : Type} {hw : DriverCall → Int} {c : DriverCall}
    {f : α → α} {a : α} {t : List DriverCall} {a' : α} {e : CommitError}
    (h : hwCall hw c f a = (t, a', some e)) :
    e = CommitError.HardwareRejected (hw c) ∧ hw c ≠ 0 ∧ a' = a ∧ t = [c] := by
  unfold hwCall at h
  by_cases h0 : hw c = 0
  · rw [if_pos h0] at h
    simp only [Prod.mk.injEq] at h
    exact absurd h.2.2 (by simp)
  · rw [if_neg h0] at h
    simp only [Prod.mk.injEq, Option.some.injEq] at h
    exact ⟨h.2.2.symm, h0, h.2.1.symm, h.1.symm⟩

/-- a successful sequencing splits into two successful halves. -/
theorem candThen_ok {α : Type} {r : CResult α} {f : α → CResult α}
    {t : List DriverCall} {a : α}
    (h : candThen r f = (t, a, none)) :
    ∃ t1 a1 t2, r = (t1, a1, none) ∧ f a1 = (t2, a, none) ∧ t = t1 ++ t2 := by
  obtain ⟨t0, a0, e0⟩ := r
  cases e0 with
  | some err =>
    simp only [candThen, Prod.mk.injEq] at h
    exact absurd h.2.2 (by simp)
  | none =>
    rcases h' : f a0 with ⟨t2, a2, e2⟩
    simp only [candThen, h', Prod.mk.injEq] at h
    obtain ⟨rfl, rfl, rfl⟩ : t0 ++ t2 = t ∧ a2 = a ∧ e2 = none := ⟨h.1, h.2.1, h.2.2⟩
    exact ⟨t0, a0, t2, rfl, h', rfl⟩

/-- a failed sequencing failed in the first half (second half untouched)
or in the second half after a successful first half. -/
theorem candThen_error {α : Type} {r : CResult α} {f : α → CResult α}
    {t : List DriverCall} {a : α} {e : CommitError}
    (h : candThen r f = (t, a, some e)) :
    r = (t, a, some e) ∨
    ∃ t1 a1 t2, r = (t1, a1, none) ∧ f a1 = (t2, a, some e) ∧ t = t1 ++ t2 := by
  obtain ⟨t0, a0, e0⟩ := r
  cases e0 with
  | some err =>
    left
    simp only [candThen] at h
    exact h
  | none =>
    right
    rcases h' : f a0 with ⟨t2, a2, e2⟩
    simp only [candThen, h', Prod.mk.injEq] at h
    obtain ⟨rfl, rfl, rfl⟩ : t0 ++ t2 = t ∧ a2 = a ∧ e2 = some e := ⟨h.1, h.2.1, h.2.2⟩
    exact ⟨t0, a0, t2, rfl, h', rfl⟩

/-- a plane with no dirty bit is unchanged by clearing all dirty bits. -/
theorem clearPlaneAll_of_clean {p : igt_plane_t} (h : planeDirty p = false) :
    clearPlaneAll p = p := by
  obtain ⟨idx, prim, cur, f1, f2, f3, f4, f5, fb, rp, cx, cy, cw, ch, px, py, rot⟩ := p
  simp only [planeDirty, planeFieldsDirty, Bool.or_eq_false_iff] at h
  obtain ⟨⟨⟨⟨h1, h2⟩, h3⟩, h5⟩, h4⟩ := h
  simp [clearPlaneAll, h1, h2, h3, h4, h5]

/-- clearing the rotation bit of a plane with clean non-rotation fields
is the same as clearing every dirty bit. -/
theorem clear_rotation_of_fields_clean {p : igt_plane_t}
    (h : planeFieldsDirty p = false) :
    ({ p with rotation_changed := false } : igt_plane_t) = clearPlaneAll p := by
  obtain ⟨idx, prim, cur, f1, f2, f3, f4, f5, fb, rp, cx, cy, cw, ch, px, py, rot⟩ := p
  simp only [planeFieldsDirty, Bool.or_eq_false_iff] at h
  obtain ⟨⟨⟨h1, h2⟩, h3⟩, h5⟩ := h
  simp [clearPlaneAll, h1, h2, h3, h5]

/-- clearing the rotation bit of a plane whose rotation bit is already
clear changes nothing. -/
theorem clear_rotation_of_rotation_clean {p : igt_plane_t}
    (h : p.rotation_changed = false) :
    ({ p with rotation_changed := false } : igt_plane_t) = p := by
  obtain ⟨idx, prim, cur, f1, f2, f3, f4, f5, fb, rp, cx, cy, cw, ch, px, py, rot⟩ := p
  simp only at h
  simp [h]

/-- a successful rotation commit clears exactly the rotation dirty bit. -/
theorem plane_rotation_ok {hw : DriverCall → Int} {p : igt_plane_t}
    {t : List DriverCall} {p' : igt_plane_t}
    (h : igt_plane_commit_rotation hw p = (t, p', none)) :
    p' = { p with rotation_changed := false } := by
  unfold igt_plane_commit_rotation at h
  by_cases h1 : p.rotation_changed = false
  · rw [if_pos h1] at h
    simp only [Prod.mk.injEq] at h
    rw [← h.2.1, clear_rotation_of_rotation_clean h1]
  · rw [if_neg h1] at h
    by_cases h2 : igt_plane_supports_rotation p
    · rw [if_pos h2] at h
      exact (hwCall_ok h).1
    · rw [if_neg h2] at h
      simp only [Prod.mk.injEq] at h
      exact absurd h.2.2 (by simp)

/-- a rotation commit on a rotation-incapable dirty plane never
succeeds. -/
theorem plane_rotation_fails {hw : DriverCall → Int} {p : igt_plane_t}
    (h1 : p.rotation_changed = true) (h2 : p.rotation_property = 0) :
    ∀ t p', igt_plane_commit_rotation hw p ≠ (t, p', none) := by
  intro t p' h
  unfold igt_plane_commit_rotation at h
  rw [if_neg (by simp [h1])] at h
  have hsup : igt_plane_supports_rotation p = false := by
    simp [igt_plane_supports_rotation, h2]
  rw [hsup] at h
  simp only [Bool.false_eq_true, if_false, Prod.mk.injEq] at h
  exact absurd h.2.2 (by simp)

/-- under an all-success oracle, a failing rotation commit is exactly the
`RotationUnsupported` hard error, raised without touching the plane. -/
theorem plane_rotation_error {hw : DriverCall → Int}
    (hhw : ∀ c, hw c = 0) {p : igt_plane_t} {t : List DriverCall}
    {p' : igt_plane_t} {e : CommitError}
    (h : igt_plane_commit_rotation hw p = (t, p', some e)) :
    e = CommitError.RotationUnsupported ∧ p' = p ∧ t = [] ∧
    p.rotation_changed = true ∧ p.rotation_property = 0 := by
  unfold igt_plane_commit_rotation at h
  by_cases h1 : p.rotation_changed = false
  · rw [if_pos h1] at h
    simp only [Prod.mk.injEq] at h
    exact absurd h.2.2 (by simp)
  · rw [if_neg h1] at h
    by_cases h2 : igt_plane_supports_rotation p
    · rw [if_pos h2] at h
      obtain ⟨-, habs, -, -⟩ := hwCall_error h
      exact absurd (hhw _) habs
    · rw [if_neg h2] at h
      simp only [Prod.mk.injEq, Option.some.injEq] at h
      refine ⟨h.2.2.symm, h.2.1.symm, h.1.symm, ?_, ?_⟩
      · cases hb : p.rotation_changed
        · exact absurd hb h1
        · rfl
      · simpa [igt_plane_supports_rotation] using h2

/-- a committed plane has every dirty bit cleared and nothing else
changed, in either commit style. -/
theorem plane_commit_ok {hw : DriverCall → Int} {s : igt_commit_style}
    {i : Nat} {p : igt_plane_t} {t : List DriverCall} {p' : igt_plane_t}
    (h : igt_plane_commit hw s i p = (t, p', none)) :
    p' = clearPlaneAll p := by
  have step :
      ∀ (r0 : CResult igt_plane_t),
        (r0 = ([], p, none) ∧ planeFieldsDirty p = false ∨
         ∃ t0, r0 = (t0, clearPlaneFields p, none) ∨ r0.2.2 ≠ none) →
        candThen r0 (igt_plane_commit_rotation hw) = (t, p', none) →
        p' = clearPlaneAll p := by
    intro r0 hr0 hc
    obtain ⟨t1, a1, t2, he1, he2, -⟩ := candThen_ok hc
    have ha1 : a1 = p ∧ planeFieldsDirty p = false ∨ a1 = clearPlaneFields p := by
      rcases hr0 with ⟨hr, hf⟩ | ⟨t0, hr | hbad⟩
      · rw [hr] at he1
        simp only [Prod.mk.injEq] at he1
        exact Or.inl ⟨he1.2.1.symm, hf⟩
      · rw [hr] at he1
        simp only [Prod.mk.injEq] at he1
        exact Or.inr he1.2.1.symm
      · rw [he1] at hbad
        exact absurd rfl hbad
    have hrot := plane_rotation_ok he2
    rcases ha1 with ⟨rfl, hf⟩ | rfl
    · rw [hrot]
      exact clear_rotation_of_fields_clean hf
    · rw [hrot]
      obtain ⟨idx, prim, cur, f1, f2, f3, f4, f5, fb, rp, cx, cy, cw, ch, px, py, rot⟩ := p
      simp [clearPlaneAll, clearPlaneFields]
  cases s with
  | COMMIT_UNIVERSAL =>
    unfold igt_plane_commit igt_plane_commit_universal at h
    refine step _ ?_ h
    by_cases hf : planeFieldsDirty p
    · rw [if_pos hf]
      rcases hcall : hwCall hw
          (DriverCall.setPlane i p.index p.fb p.pan_x p.pan_y
            p.crtc_x p.crtc_y p.crtc_w p.crtc_h) clearPlaneFields p
        with ⟨tc, ac, ec⟩
      cases ec with
      | none =>
        obtain ⟨rfl, rfl, -⟩ := hwCall_ok hcall
        exact Or.inr ⟨[_], Or.inl rfl⟩
      | some err => exact Or.inr ⟨[], Or.inr (by simp)⟩
    · rw [if_neg hf]
      exact Or.inl ⟨rfl, Bool.not_eq_true _ ▸ hf⟩
  | COMMIT_LEGACY =>
    unfold igt_plane_commit igt_plane_commit_legacy at h
    by_cases hp : p.is_primary
    · rw [if_pos hp] at h
      refine step _ ?_ h
      by_cases hf : planeFieldsDirty p
      · rw [if_pos hf]
        rcases hcall : hwCall hw (DriverCall.setCrtc i p.fb) clearPlaneFields p
          with ⟨tc, ac, ec⟩
        cases ec with
        | none =>
          obtain ⟨rfl, rfl, -⟩ := hwCall_ok hcall
          exact Or.inr ⟨[_], Or.inl rfl⟩
        | some err => exact Or.inr ⟨[], Or.inr (by simp)⟩
      · rw [if_neg hf]
        exact Or.inl ⟨rfl, Bool.not_eq_true _ ▸ hf⟩
    · rw [if_neg hp] at h
      by_cases hcur : p.is_cursor
      · rw [if_pos hcur] at h
        refine step _ ?_ h
        by_cases hf : planeFieldsDirty p
        · rw [if_pos hf]
          rcases hcall : hwCall hw (DriverCall.setCursor i p.fb) clearPlaneFields p
            with ⟨tc, ac, ec⟩
          cases ec with
          | none =>
            obtain ⟨rfl, rfl, -⟩ := hwCall_ok hcall
            exact Or.inr ⟨[_], Or.inl rfl⟩
          | some err => exact Or.inr ⟨[], Or.inr (by simp)⟩
        · rw [if_neg hf]
          exact Or.inl ⟨rfl, Bool.not_eq_true _ ▸ hf⟩
      · rw [if_neg hcur] at h
        by_cases hd : planeDirty p
        · rw [if_pos hd] at h
          simp only [Prod.mk.injEq] at h
          exact absurd h.2.2 (by simp)
        · rw [if_neg hd] at h
          simp only [Prod.mk.injEq] at h
          rw [← h.2.1, clearPlaneAll_of_clean (Bool.not_eq_true _ ▸ hd)]

/-- under an all-success oracle a hardware call always succeeds. -/
theorem hwCall_hw0 {α : Type} {hw : DriverCall → Int} (hhw : ∀ c, hw c = 0)
    (c : DriverCall) (f : α → α) (a : α) :
    hwCall hw c f a = ([c], f a, none) := by
  unfold hwCall
  rw [if_pos (hhw c)]

/-- a clean plane commits as a no-op in either style. -/
theorem plane_commit_clean {hw : DriverCall → Int} {s : igt_commit_style}
    {i : Nat} {p : igt_plane_t} (h : planeDirty p = false) :
    igt_plane_commit hw s i p = ([], p, none) := by
  have hf : planeFieldsDirty p = false := by
    simp only [planeDirty, Bool.or_eq_false_iff] at h
    exact h.1
  have hr : p.rotation_changed = false := by
    simp only [planeDirty, Bool.or_eq_false_iff] at h
    exact h.2
  have hrot : igt_plane_commit_rotation hw p = ([], p, none) := by
    unfold igt_plane_commit_rotation
    rw [if_pos hr]
  cases s with
  | COMMIT_UNIVERSAL =>
    unfold igt_plane_commit igt_plane_commit_universal
    rw [if_neg (by simp [hf]), candThen, hrot]
    rfl
  | COMMIT_LEGACY =>
    unfold igt_plane_commit igt_plane_commit_legacy
    by_cases hp : p.is_primary
    · rw [if_pos hp, if_neg (by simp [hf]), candThen, hrot]
      rfl
    · rw [if_neg hp]
      by_cases hc : p.is_cursor
      · rw [if_pos hc, if_neg (by simp [hf]), candThen, hrot]
        rfl
      · rw [if_neg hc, if_neg (by simp [h])]

/-- a dirty overlay plane fails a legacy commit immediately, with zero
driver calls issued for it and the plane untouched. -/
theorem plane_commit_legacy_overlay_dirty {hw : DriverCall → Int} {i : Nat}
    {p : igt_plane_t} (h1 : isOverlay p = true) (h2 : planeDirty p = true) :
    igt_plane_commit_legacy hw i p =
      ([], p, some CommitError.UnsupportedInLegacyMode) := by
  simp only [isOverlay, Bool.and_eq_true, Bool.not_eq_true'] at h1
  unfold igt_plane_commit_legacy
  rw [if_neg (by simp [h1.1]), if_neg (by simp [h1.2]), if_pos h2]

/-- under an all-success oracle, every rotation commit of a
rotation-capable plane succeeds. -/
theorem plane_rotation_capable_ok {hw : DriverCall → Int}
    (hhw : ∀ c, hw c = 0) {p : igt_plane_t}
    (hcap : p.rotation_changed = true → p.rotation_property ≠ 0) :
    ∃ t p', igt_plane_commit_rotation hw p = (t, p', none) := by
  unfold igt_plane_commit_rotation
  by_cases h1 : p.rotation_changed = false
  · rw [if_pos h1]
    exact ⟨[], p, rfl⟩
  · rw [if_neg h1]
    have hsup : igt_plane_supports_rotation p = true := by
      simp only [igt_plane_supports_rotation, ne_eq, bne_iff_ne]
      exact hcap (by cases hb : p.rotation_changed with
        | false => exact absurd hb h1
        | true => rfl)
    rw [if_pos hsup, hwCall_hw0 hhw]
    exact ⟨_, _, rfl⟩

/-- under an all-success oracle, a failing legacy plane commit on a pipe
whose rotation requests are all supportable can only be the overlay
error. -/
theorem plane_commit_legacy_error {hw : DriverCall → Int}
    (hhw : ∀ c, hw c = 0) {i : Nat} {p : igt_plane_t}
    (hcap : p.rotation_changed = true → p.rotation_property ≠ 0)
    {t : List DriverCall} {p' : igt_plane_t} {e : CommitError}
    (h : igt_plane_commit_legacy hw i p = (t, p', some e)) :
    e = CommitError.UnsupportedInLegacyMode ∧ isOverlay p = true ∧
    planeDirty p = true ∧ p' = p ∧ t = [] := by
  unfold igt_plane_commit_legacy at h
  have hstage :
      ∀ (r0 : CResult igt_plane_t),
        (∃ t0 a0, r0 = (t0, a0, none) ∧
          a0.rotation_changed = p.rotation_changed ∧
          a0.rotation_property = p.rotation_property) →
        candThen r0 (igt_plane_commit_rotation hw) ≠ (t, p', some e) := by
    intro r0 ⟨t0, a0, hr0, hrc, hrp⟩ hc
    rcases candThen_error hc with hfirst | ⟨t1, a1, t2, he1, he2, -⟩
    · rw [hr0] at hfirst
      simp only [Prod.mk.injEq] at hfirst
      exact absurd hfirst.2.2 (by simp)
    · rw [hr0] at he1
      simp only [Prod.mk.injEq] at he1
      obtain ⟨-, rfl, -⟩ := he1
      obtain ⟨-, -, -, hrc1, hrp1⟩ := plane_rotation_error hhw he2
      rw [hrc] at hrc1
      rw [hrp] at hrp1
      exact hcap hrc1 hrp1
  by_cases hp : p.is_primary
  · rw [if_pos hp] at h
    exfalso
    refine hstage _ ?_ h
    by_cases hf : planeFieldsDirty p
    · rw [if_pos hf, hwCall_hw0 hhw]
      exact ⟨_, _, rfl, rfl, rfl⟩
    · rw [if_neg hf]
      exact ⟨_, _, rfl, rfl, rfl⟩
  · rw [if_neg hp] at h
    by_cases hcur : p.is_cursor
    · rw [if_pos hcur] at h
      exfalso
      refine hstage _ ?_ h
      by_cases hf : planeFieldsDirty p
      · rw [if_pos hf, hwCall_hw0 hhw]
        exact ⟨_, _, rfl, rfl, rfl⟩
      · rw [if_neg hf]
        exact ⟨_, _, rfl, rfl, rfl⟩
    · rw [if_neg hcur] at h
      by_cases hd : planeDirty p
      · rw [if_pos hd] at h
        simp only [Prod.mk.injEq, Option.some.injEq] at h
        refine ⟨h.2.2.symm, ?_, hd, h.2.1.symm, h.1.symm⟩
        have hp' : p.is_primary = false := by
          cases hb : p.is_primary with
          | true => exact absurd hb hp
          | false => rfl
        have hcur' : p.is_cursor = false := by
          cases hb : p.is_cursor with
          | true => exact absurd hb hcur
          | false => rfl
        simp [isOverlay, hp', hcur']
      · rw [if_neg hd] at h
        simp only [Prod.mk.injEq] at h
        exact absurd h.2.2 (by simp)

/-- under an all-success oracle, a failing universal plane commit is
exactly the rotation hard error, and the returned plane still carries the
set rotation dirty bit and the zero rotation property. -/
theorem plane_commit_universal_error {hw : DriverCall → Int}
    (hhw : ∀ c, hw c = 0) {i : Nat} {p : igt_plane_t}
    {t : List DriverCall} {p' : igt_plane_t} {e : CommitError}
    (h : igt_plane_commit_universal hw i p = (t, p', some e)) :
    e = CommitError.RotationUnsupported ∧ p'.rotation_changed = true ∧
    p'.rotation_property = 0 := by
  unfold igt_plane_commit_universal at h
  have hstep :
      ∃ t0 a0, (if planeFieldsDirty p then
          hwCall hw
            (DriverCall.setPlane i p.index p.fb p.pan_x p.pan_y
              p.crtc_x p.crtc_y p.crtc_w p.crtc_h) clearPlaneFields p
        else ([], p, none)) = (t0, a0, none) := by
    by_cases hf : planeFieldsDirty p
    · rw [if_pos hf, hwCall_hw0 hhw]
      exact ⟨_, _, rfl⟩
    · rw [if_neg hf]
      exact ⟨_, _, rfl⟩
  obtain ⟨t0, a0, hstep⟩ := hstep
  rcases candThen_error h with hfirst | ⟨t1, a1, t2, he1, he2, -⟩
  · rw [hstep] at hfirst
    simp only [Prod.mk.injEq] at hfirst
    exact absurd hfirst.2.2 (by simp)
  · obtain ⟨he, hp', -, hrc, hrp⟩ := plane_rotation_error hhw he2
    exact ⟨he, by rw [hp', hrc], by rw [hp', hrp]⟩

/-- a universal plane commit of a rotation-incapable plane with a dirty
rotation bit never succeeds. -/
theorem plane_commit_universal_rot_fails {hw : DriverCall → Int} {i : Nat}
    {p : igt_plane_t} (h1 : p.rotation_changed = true)
    (h2 : p.rotation_property = 0) :
    ∀ t p', igt_plane_commit_universal hw i p ≠ (t, p', none) := by
  intro t p' h
  obtain ⟨t1, a1, t2, he1, he2, -⟩ := candThen_ok h
  have ha1 : a1.rotation_changed = true ∧ a1.rotation_property = 0 := by
    by_cases hf : planeFieldsDirty p
    · rw [if_pos hf] at he1
      unfold hwCall at he1
      by_cases h0 : hw (DriverCall.setPlane i p.index p.fb p.pan_x p.pan_y
          p.crtc_x p.crtc_y p.crtc_w p.crtc_h) = 0
      · rw [if_pos h0] at he1
        simp only [Prod.mk.injEq] at he1
        rw [← he1.2.1]
        exact ⟨h1, h2⟩
      · rw [if_neg h0] at he1
        simp only [Prod.mk.injEq] at he1
        exact absurd he1.2.2 (by simp)
    · rw [if_neg hf] at he1
      simp only [Prod.mk.injEq] at he1
      rw [← he1.2.1]
      exact ⟨h1, h2⟩
  exact plane_rotation_fails ha1.1 ha1.2 t2 p' he2

/-- a successful list iteration applied a successful step to every
element. -/
theorem seqC_ok_all {α : Type} {f : α → CResult α} :
    ∀ {as : List α} {t : List DriverCall} {as' : List α},
      seqC f as = (t, as', none) → ∀ a ∈ as, ∃ t' a', f a = (t', a', none) := by
  intro as
  induction as with
  | nil => intro t as' _ a ha; cases ha
  | cons a as ih =>
    intro t as' h b hb
    rcases h' : f a with ⟨t1, a1, e1⟩
    cases e1 with
    | some err =>
      simp only [seqC, h', Prod.mk.injEq] at h
      exact absurd h.2.2 (by simp)
    | none =>
      rcases h2 : seqC f as with ⟨t2, as2, e2⟩
      simp only [seqC, h', h2, Prod.mk.injEq] at h
      rcases List.mem_cons.1 hb with rfl | hmem
      · exact ⟨t1, a1, h'⟩
      · cases e2 with
        | some err => exact absurd h.2.2 (by simp)
        | none => exact ih h2 b hmem

/-- a successful list iteration whose step acts as `g` on success maps
`g` over the list. -/
theorem seqC_ok_map {α : Type} {f : α → CResult α} {g : α → α}
    (hfg : ∀ a t a', f a = (t, a', none) → a' = g a) :
    ∀ {as : List α} {t : List DriverCall} {as' : List α},
      seqC f as = (t, as', none) → as' = as.map g := by
  intro as
  induction as with
  | nil =>
    intro t as' h
    simp only [seqC, Prod.mk.injEq] at h
    rw [← h.2.1, List.map_nil]
  | cons a as ih =>
    intro t as' h
    rcases h' : f a with ⟨t1, a1, e1⟩
    cases e1 with
    | some err =>
      simp only [seqC, h', Prod.mk.injEq] at h
      exact absurd h.2.2 (by simp)
    | none =>
      rcases h2 : seqC f as with ⟨t2, as2, e2⟩
      simp only [seqC, h', h2, Prod.mk.injEq] at h
      cases e2 with
      | some err => exact absurd h.2.2 (by simp)
      | none =>
        rw [← h.2.1, List.map_cons, hfg a t1 a1 h', ih h2]

/-- a list iteration of no-op steps is a no-op. -/
theorem seqC_pure {α : Type} {f : α → CResult α} :
    ∀ {as : List α}, (∀ a ∈ as, f a = ([], a, none)) →
      seqC f as = ([], as, none) := by
  intro as
  induction as with
  | nil => intro _; rfl
  | cons a as ih =>
    intro h
    have ha := h a (List.mem_cons_self a as)
    have has := ih (fun b hb => h b (List.mem_cons_of_mem a hb))
    simp only [seqC, ha, has]
    rfl

/-- a failing list iteration pinpoints a failing element, whose partial
result is kept in the returned list. -/
theorem seqC_error_mem {α : Type} {f : α → CResult α} :
    ∀ {as : List α} {t : List DriverCall} {as' : List α} {e : CommitError},
      seqC f as = (t, as', some e) →
      ∃ a t' a', a ∈ as ∧ f a = (t', a', some e) ∧ a' ∈ as' := by
  intro as
  induction as with
  | nil =>
    intro t as' e h
    simp only [seqC, Prod.mk.injEq] at h
    exact absurd h.2.2 (by simp)
  | cons a as ih =>
    intro t as' e h
    rcases h' : f a with ⟨t1, a1, e1⟩
    cases e1 with
    | some err =>
      simp only [seqC, h', Prod.mk.injEq, Option.some.injEq] at h
      exact ⟨a, t1, a1, List.mem_cons_self a as,
        by rw [h', h.2.2], by rw [← h.2.1]; exact List.mem_cons_self a1 as⟩
    | none =>
      rcases h2 : seqC f as with ⟨t2, as2, e2⟩
      simp only [seqC, h', h2, Prod.mk.injEq] at h
      cases e2 with
      | none => exact absurd h.2.2 (by simp)
      | some err =>
        obtain ⟨rfl⟩ : err = e := by
          have := h.2.2
          simp only [Option.some.injEq] at this
          exact this
        obtain ⟨b, t', b', hmem, hfb, hmem'⟩ := ih h2
        exact ⟨b, t', b', List.mem_cons_of_mem a hmem, hfb,
          by rw [← h.2.1]; exact List.mem_cons_of_mem a1 hmem'⟩

/-- an indexed iteration of no-op steps is a no-op. -/
theorem seqCIdx_pure {α : Type} {f : Nat → α → CResult α} :
    ∀ (as : List α) (i : Nat),
      (∀ k a, as[k]? = some a → f (i + k) a = ([], a, none)) →
      seqCIdx f i as = ([], as, none) := by
  intro as
  induction as with
  | nil => intro i _; rfl
  | cons a as ih =>
    intro i h
    have ha : f i a = ([], a, none) := by
      have := h 0 a (by simp)
      rwa [Nat.add_zero] at this
    have has := ih (i + 1) (fun k b hb => by
      have := h (k + 1) b (by simpa using hb)
      rwa [show i + (k + 1) = i + 1 + k by omega] at this)
    simp only [seqCIdx, ha, has]
    rfl

/-- every call in the trace of a sequencing comes from one of its two
halves. -/
theorem mem_candThen_trace {α : Type} {r : CResult α} {f : α → CResult α}
    {c : DriverCall} (h : c ∈ (candThen r f).1) :
    c ∈ r.1 ∨ ∃ a, c ∈ (f a).1 := by
  obtain ⟨t0, a0, e0⟩ := r
  cases e0 with
  | some err => exact Or.inl h
  | none =>
    rcases h' : f a0 with ⟨t2, a2, e2⟩
    simp only [candThen, h'] at h
    rcases List.mem_append.1 h with hm | hm
    · exact Or.inl hm
    · exact Or.inr ⟨a0, by rw [h']; exact hm⟩

/-- every call in the trace of a list iteration comes from the step on
one of the elements. -/
theorem mem_seqC_trace {α : Type} {f : α → CResult α} :
    ∀ {as : List α} {c : DriverCall}, c ∈ (seqC f as).1 →
      ∃ a, a ∈ as ∧ c ∈ (f a).1 := by
  intro as
  induction as with
  | nil => intro c h; cases h
  | cons a as ih =>
    intro c h
    rcases h' : f a with ⟨t1, a1, e1⟩
    cases e1 with
    | some err =>
      simp only [seqC, h'] at h
      exact ⟨a, List.mem_cons_self a as, by rw [h']; exact h⟩
    | none =>
      rcases h2 : seqC f as with ⟨t2, as2, e2⟩
      simp only [seqC, h', h2] at h
      rcases List.mem_append.1 h with hm | hm
      · exact ⟨a, List.mem_cons_self a as, by rw [h']; exact hm⟩
      · obtain ⟨b, hb, hcb⟩ := ih (by rw [h2]; exact hm)
        exact ⟨b, List.mem_cons_of_mem a hb, hcb⟩

/-- every call in the trace of an indexed iteration comes from the step
on one of the elements at some index. -/
theorem mem_seqCIdx_trace {α : Type} {f : Nat → α → CResult α} :
    ∀ {as : List α} {i : Nat} {c : DriverCall}, c ∈ (seqCIdx f i as).1 →
      ∃ j a, a ∈ as ∧ c ∈ (f j a).1 := by
  intro as
  induction as with
  | nil => intro i c h; cases h
  | cons a as ih =>
    intro i c h
    rcases h' : f i a with ⟨t1, a1, e1⟩
    cases e1 with
    | some err =>
      simp only [seqCIdx, h'] at h
      exact ⟨i, a, List.mem_cons_self a as, by rw [h']; exact h⟩
    | none =>
      rcases h2 : seqCIdx f (i + 1) as with ⟨t2, as2, e2⟩
      simp only [seqCIdx, h', h2] at h
      rcases List.mem_append.1 h with hm | hm
      · exact ⟨i, a, List.mem_cons_self a as, by rw [h']; exact hm⟩
      · obtain ⟨j, b, hb, hcb⟩ := ih (by rw [h2]; exact hm)
        exact ⟨j, b, List.mem_cons_of_mem a hb, hcb⟩

/-- the trace of a hardware call holds exactly that call. -/
theorem mem_hwCall_trace {α : Type} {hw : DriverCall → Int} {c0 : DriverCall}
    {f : α → α} {a : α} {c : DriverCall} (h : c ∈ (hwCall hw c0 f a).1) :
    c = c0 := by
  unfold hwCall at h
  by_cases h0 : hw c0 = 0
  · rw [if_pos h0] at h
    exact List.mem_singleton.1 h
  · rw [if_neg h0] at h
    exact List.mem_singleton.1 h

/-- the good-run property does not depend on the state component. -/
theorem goodRun_mid {α β : Type} {hw : DriverCall → Int}
    {t : List DriverCall} {e : Option CommitError} {a : α} (b : β)
    (h : GoodRun hw (t, a, e)) : GoodRun hw (t, b, e) := by
  cases e with
  | none => exact h
  | some err =>
    cases err
    all_goals exact h

/-- rotation commits are good runs. -/
theorem goodRun_plane_rotation (hw : DriverCall → Int) (p : igt_plane_t) :
    GoodRun hw (igt_plane_commit_rotation hw p) := by
  unfold igt_plane_commit_rotation
  by_cases h1 : p.rotation_changed = false
  · rw [if_pos h1]
    exact goodRun_pure hw p
  · rw [if_neg h1]
    by_cases h2 : igt_plane_supports_rotation p
    · rw [if_pos h2]
      exact goodRun_hwCall hw _ _ p
    · rw [if_neg h2]
      exact goodRun_modelError hw p _ (fun code h => by cases h)

/-- plane commits are good runs in either style. -/
theorem goodRun_plane_commit (hw : DriverCall → Int) (s : igt_commit_style)
    (i : Nat) (p : igt_plane_t) : GoodRun hw (igt_plane_commit hw s i p) := by
  cases s with
  | COMMIT_UNIVERSAL =>
    unfold igt_plane_commit igt_plane_commit_universal
    refine goodRun_candThen ?_ (goodRun_plane_rotation hw)
    by_cases hf : planeFieldsDirty p
    · rw [if_pos hf]
      exact goodRun_hwCall hw _ _ p
    · rw [if_neg hf]
      exact goodRun_pure hw p
  | COMMIT_LEGACY =>
    unfold igt_plane_commit igt_plane_commit_legacy
    by_cases hp : p.is_primary
    · rw [if_pos hp]
      refine goodRun_candThen ?_ (goodRun_plane_rotation hw)
      by_cases hf : planeFieldsDirty p
      · rw [if_pos hf]
        exact goodRun_hwCall hw _ _ p
      · rw [if_neg hf]
        exact goodRun_pure hw p
    · rw [if_neg hp]
      by_cases hc : p.is_cursor
      · rw [if_pos hc]
        refine goodRun_candThen ?_ (goodRun_plane_rotation hw)
        by_cases hf : planeFieldsDirty p
        · rw [if_pos hf]
          exact goodRun_hwCall hw _ _ p
        · rw [if_neg hf]
          exact goodRun_pure hw p
      · rw [if_neg hc]
        by_cases hd : planeDirty p
        · rw [if_pos hd]
          exact goodRun_modelError hw p _ (fun code h => by cases h)
        · rw [if_neg hd]
          exact goodRun_pure hw p

/-- pipe commits are good runs. -/
theorem goodRun_pipe_commit (hw : DriverCall → Int) (s : igt_commit_style)
    (i : Nat) (pp : igt_pipe) : GoodRun hw (igt_pipe_commit hw s i pp) := by
  unfold igt_pipe_commit
  refine goodRun_candThen (goodRun_candThen ?_ ?_) ?_
  · cases s with
    | COMMIT_UNIVERSAL =>
      by_cases ha : pp.planes.any planeDirty
      · simp only [ha, if_true]
        exact goodRun_hwCall hw _ _ pp
      · simp only [ha, if_false]
        exact goodRun_pure hw pp
    | COMMIT_LEGACY => exact goodRun_pure hw pp
  · intro x
    unfold igt_pipe_commit_planes
    rcases hsq : seqC (igt_plane_commit hw s i) x.planes with ⟨ts, ps, es⟩
    have := @goodRun_seqC igt_plane_t hw (igt_plane_commit hw s i)
      (fun a => goodRun_plane_commit hw s i a) x.planes
    rw [hsq] at this
    exact goodRun_mid _ this
  · intro x
    unfold igt_pipe_commit_background
    by_cases hc : x.background_changed && (x.background_property != 0)
    · rw [if_pos hc]
      exact goodRun_hwCall hw _ _ x
    · rw [if_neg hc]
      exact goodRun_pure hw x

/-- the hardware-programming phase is a good run for every display and
style. -/
theorem goodRun_display_commit_pipes (hw : DriverCall → Int)
    (s : igt_commit_style) (d : igt_display) :
    GoodRun hw (igt_display_commit_pipes hw s d) := by
  unfold igt_display_commit_pipes
  rcases hsq : seqCIdx
      (fun i p =>
        if d.pipes_in_use.testBit i then igt_pipe_commit hw s i p
        else ([], p, none))
      0 d.pipes with ⟨t, ps, e⟩
  have := @goodRun_seqCIdx igt_pipe hw
    (fun i p =>
      if d.pipes_in_use.testBit i then igt_pipe_commit hw s i p
      else ([], p, none))
    (fun i a => by
      by_cases hb : d.pipes_in_use.testBit i
      · simp only [hb, if_true]
        exact goodRun_pipe_commit hw s i a
      · simp only [hb, if_false]
        exact goodRun_pure hw a)
    d.pipes 0
  rw [hsq] at this
  exact goodRun_mid _ this

/-- a successful background commit clears the background dirty bit
exactly when the pipe has a background property. -/
theorem pipe_background_ok {hw : DriverCall → Int} {x : igt_pipe}
    {t : List DriverCall} {pp' : igt_pipe}
    (h : igt_pipe_commit_background hw x = (t, pp', none)) :
    pp' = { x with background_changed :=
      x.background_changed && (x.background_property == 0) } := by
  unfold igt_pipe_commit_background at h
  by_cases hc : x.background_changed && (x.background_property != 0)
  · rw [if_pos hc] at h
    have h1 := (hwCall_ok h).1
    rw [h1]
    obtain ⟨pi, en, pl, bgv, bgc, bgp⟩ := x
    simp only [Bool.and_eq_true, bne_iff_ne, ne_eq] at hc
    simp [hc.1, beq_eq_false_iff_ne, hc.2]
  · rw [if_neg hc] at h
    simp only [Prod.mk.injEq] at h
    rw [← h.2.1]
    obtain ⟨pi, en, pl, bgv, bgc, bgp⟩ := x
    simp only [Bool.and_eq_true, bne_iff_ne, ne_eq, not_and, not_not] at hc
    cases hbgc : bgc with
    | false => simp [hbgc]
    | true => simp [hbgc, hc (by rw [hbgc])]

/-- a committed pipe has all committed dirty bits cleared: every plane
bit, and the background bit exactly when a background property exists. -/
theorem pipe_commit_ok {hw : DriverCall → Int} {s : igt_commit_style}
    {i : Nat} {pp : igt_pipe} {t : List DriverCall} {pp' : igt_pipe}
    (h : igt_pipe_commit hw s i pp = (t, pp', none)) :
    pp' = cleanPipe pp := by
  obtain ⟨t1, x, t2, h12, hbg, -⟩ := candThen_ok h
  obtain ⟨ta, y, tb, hA, hB, -⟩ := candThen_ok h12
  have hy : y = pp := by
    cases s with
    | COMMIT_UNIVERSAL =>
      by_cases ha : pp.planes.any planeDirty
      · rw [if_pos ha] at hA
        exact (hwCall_ok hA).1
      · rw [if_neg ha] at hA
        simp only [Prod.mk.injEq] at hA
        exact hA.2.1.symm
    | COMMIT_LEGACY =>
      simp only [Prod.mk.injEq] at hA
      exact hA.2.1.symm
  subst hy
  unfold igt_pipe_commit_planes at hB
  rcases hsq : seqC (igt_plane_commit hw s i) y.planes with ⟨ts, ps, es⟩
  rw [hsq] at hB
  simp only [Prod.mk.injEq] at hB
  obtain ⟨-, hx, hes⟩ := hB
  cases es with
  | some err => exact absurd hes (by simp)
  | none =>
    have hps : ps = y.planes.map clearPlaneAll :=
      seqC_ok_map (fun a ta' a' ha' => plane_commit_ok ha') hsq
    have hbg' := pipe_background_ok hbg
    rw [hbg', ← hx, hps]
    rfl

/-- a quiescent pipe commits as a no-op. -/
theorem pipe_commit_quiescent {hw : DriverCall → Int} {s : igt_commit_style}
    {i : Nat} {pp : igt_pipe} (h : quiescentPipe pp) :
    igt_pipe_commit hw s i pp = ([], pp, none) := by
  obtain ⟨hpl, hbg⟩ := h
  have hany : ¬(pp.planes.any planeDirty = true) := by
    rw [List.any_eq_true]
    rintro ⟨q, hq, hdq⟩
    rw [hpl q hq] at hdq
    cases hdq
  have hplanes : seqC (igt_plane_commit hw s i) pp.planes =
      ([], pp.planes, none) :=
    seqC_pure (fun q hq => plane_commit_clean (hpl q hq))
  have hB : igt_pipe_commit_planes hw s i pp = ([], pp, none) := by
    unfold igt_pipe_commit_planes
    rw [hplanes]
  have hC : igt_pipe_commit_background hw pp = ([], pp, none) := by
    unfold igt_pipe_commit_background
    rw [if_neg]
    intro hcond
    rw [Bool.and_eq_true] at hcond
    have := hbg hcond.1
    rw [this] at hcond
    simp at hcond
  unfold igt_pipe_commit
  cases s with
  | COMMIT_UNIVERSAL =>
    rw [if_neg hany]
    simp [candThen, hB, hC]
  | COMMIT_LEGACY =>
    simp [candThen, hB, hC]

/-- under an all-success oracle the background step never fails. -/
theorem pipe_background_no_error {hw : DriverCall → Int}
    (hhw : ∀ c, hw c = 0) {x : igt_pipe} {t : List DriverCall}
    {pp' : igt_pipe} {e : CommitError}
    (h : igt_pipe_commit_background hw x = (t, pp', some e)) : False := by
  unfold igt_pipe_commit_background at h
  by_cases hc : x.background_changed && (x.background_property != 0)
  · rw [if_pos hc, hwCall_hw0 hhw] at h
    simp only [Prod.mk.injEq] at h
    exact absurd h.2.2 (by simp)
  · rw [if_neg hc] at h
    simp only [Prod.mk.injEq] at h
    exact absurd h.2.2 (by simp)

/-- under an all-success oracle a failing legacy pipe commit whose
rotation requests are all supportable is exactly the overlay error. -/
theorem pipe_commit_error_legacy {hw : DriverCall → Int}
    (hhw : ∀ c, hw c = 0) {i : Nat} {pp : igt_pipe}
    (hcap : ∀ q ∈ pp.planes, q.rotation_changed = true → q.rotation_property ≠ 0)
    {t : List DriverCall} {pp' : igt_pipe} {e : CommitError}
    (h : igt_pipe_commit hw igt_commit_style.COMMIT_LEGACY i pp = (t, pp', some e)) :
    e = CommitError.UnsupportedInLegacyMode := by
  rcases candThen_error h with h1 | ⟨t1, x, t2, h12, hbgE, -⟩
  · rcases candThen_error h1 with h2 | ⟨ta, y, tb, hA, hB, -⟩
    · simp only [Prod.mk.injEq] at h2
      exact absurd h2.2.2 (by simp)
    · have hy : y = pp := by
        simp only [Prod.mk.injEq] at hA
        exact hA.2.1.symm
      subst hy
      unfold igt_pipe_commit_planes at hB
      rcases hsq : seqC (igt_plane_commit hw igt_commit_style.COMMIT_LEGACY i)
          y.planes with ⟨ts, ps, es⟩
      rw [hsq] at hB
      simp only [Prod.mk.injEq] at hB
      cases es with
      | none => exact absurd hB.2.2 (by simp)
      | some err =>
        obtain ⟨rfl⟩ : err = e := by
          have := hB.2.2
          simp only [Option.some.injEq] at this
          exact this
        obtain ⟨q, tq, q', hq, hfq, -⟩ := seqC_error_mem hsq
        have hfq' : igt_plane_commit_legacy hw i q = (tq, q', some e) := hfq
        exact (plane_commit_legacy_error hhw (hcap q hq) hfq').1
  · exact absurd hbgE (by intro hb; exact pipe_background_no_error hhw hb)

/-- under an all-success oracle a failing universal pipe commit is the
rotation hard error, and the returned pipe still holds a plane with the
rotation dirty bit set and no rotation property. -/
theorem pipe_commit_error_universal {hw : DriverCall → Int}
    (hhw : ∀ c, hw c = 0) {i : Nat} {pp : igt_pipe}
    {t : List DriverCall} {pp' : igt_pipe} {e : CommitError}
    (h : igt_pipe_commit hw igt_commit_style.COMMIT_UNIVERSAL i pp = (t, pp', some e)) :
    e = CommitError.RotationUnsupported ∧
    ∃ q' ∈ pp'.planes, q'.rotation_changed = true ∧ q'.rotation_property = 0 := by
  rcases candThen_error h with h1 | ⟨t1, x, t2, h12, hbgE, -⟩
  · rcases candThen_error h1 with h2 | ⟨ta, y, tb, hA, hB, -⟩
    · exfalso
      by_cases ha : pp.planes.any planeDirty
      · rw [if_pos ha, hwCall_hw0 hhw] at h2
        simp only [Prod.mk.injEq] at h2
        exact absurd h2.2.2 (by simp)
      · rw [if_neg ha] at h2
        simp only [Prod.mk.injEq] at h2
        exact absurd h2.2.2 (by simp)
    · unfold igt_pipe_commit_planes at hB
      rcases hsq : seqC (igt_plane_commit hw igt_commit_style.COMMIT_UNIVERSAL i)
          y.planes with ⟨ts, ps, es⟩
      rw [hsq] at hB
      simp only [Prod.mk.injEq] at hB
      cases es with
      | none => exact absurd hB.2.2 (by simp)
      | some err =>
        obtain ⟨rfl⟩ : err = e := by
          have := hB.2.2
          simp only [Option.some.injEq] at this
          exact this
        obtain ⟨q, tq, q', hq, hfq, hq'⟩ := seqC_error_mem hsq
        have hfq' : igt_plane_commit_universal hw i q = (tq, q', some e) := hfq
        obtain ⟨he, hrc, hrp⟩ := plane_commit_universal_error hhw hfq'
        refine ⟨he, q', ?_, hrc, hrp⟩
        rw [← hB.2.1]
        exact hq'
  · exact absurd hbgE (by intro hb; exact pipe_background_no_error hhw hb)

/-- a legacy pipe commit with a dirty overlay plane never succeeds. -/
theorem pipe_commit_legacy_overlay_fails {hw : DriverCall → Int} {i : Nat}
    {pp : igt_pipe} {q : igt_plane_t} (hq : q ∈ pp.planes)
    (hov : isOverlay q = true) (hd : planeDirty q = true) :
    ∀ t pp', igt_pipe_commit hw igt_commit_style.COMMIT_LEGACY i pp ≠ (t, pp', none) := by
  intro t pp' h
  obtain ⟨t1, x, t2, h12, hbg, -⟩ := candThen_ok h
  obtain ⟨ta, y, tb, hA, hB, -⟩ := candThen_ok h12
  have hy : y = pp := by
    simp only [Prod.mk.injEq] at hA
    exact hA.2.1.symm
  subst hy
  unfold igt_pipe_commit_planes at hB
  rcases hsq : seqC (igt_plane_commit hw igt_commit_style.COMMIT_LEGACY i)
      y.planes with ⟨ts, ps, es⟩
  rw [hsq] at hB
  simp only [Prod.mk.injEq] at hB
  cases es with
  | some err => exact absurd hB.2.2 (by simp)
  | none =>
    obtain ⟨tq, q1, hfq⟩ := seqC_ok_all hsq q hq
    have : igt_plane_commit_legacy hw i q = (tq, q1, none) := hfq
    rw [plane_commit_legacy_overlay_dirty hov hd] at this
    simp only [Prod.mk.injEq] at this
    exact absurd this.2.2 (by simp)

/-- a universal pipe commit with a rotation-incapable rotation-dirty
plane never succeeds. -/
theorem pipe_commit_universal_rot_fails {hw : DriverCall → Int} {i : Nat}
    {pp : igt_pipe} {q : igt_plane_t} (hq : q ∈ pp.planes)
    (hrc : q.rotation_changed = true) (hrp : q.rotation_property = 0) :
    ∀ t pp', igt_pipe_commit hw igt_commit_style.COMMIT_UNIVERSAL i pp ≠ (t, pp', none) := by
  intro t pp' h
  obtain ⟨t1, x, t2, h12, hbg, -⟩ := candThen_ok h
  obtain ⟨ta, y, tb, hA, hB, -⟩ := candThen_ok h12
  have hy : y = pp := by
    by_cases ha : pp.planes.any planeDirty
    · rw [if_pos ha] at hA
      exact (hwCall_ok hA).1
    · rw [if_neg ha] at hA
      simp only [Prod.mk.injEq] at hA
      exact hA.2.1.symm
  subst hy
  unfold igt_pipe_commit_planes at hB
  rcases hsq : seqC (igt_plane_commit hw igt_commit_style.COMMIT_UNIVERSAL i)
      y.planes with ⟨ts, ps, es⟩
  rw [hsq] at hB
  simp only [Prod.mk.injEq] at hB
  cases es with
  | some err => exact absurd hB.2.2 (by simp)
  | none =>
    obtain ⟨tq, q1, hfq⟩ := seqC_ok_all hsq q hq
    exact plane_commit_universal_rot_fails hrc hrp tq q1 hfq

/-- the hardware phase leaves the output list and the in-use bitmask of
the display untouched, whatever the outcome. -/
theorem display_commit_pipes_frame {hw : DriverCall → Int}
    {s : igt_commit_style} {d : igt_display} :
    (igt_display_commit_pipes hw s d).2.1.outputs = d.outputs ∧
    (igt_display_commit_pipes hw s d).2.1.pipes_in_use = d.pipes_in_use := by
  unfold igt_display_commit_pipes
  rcases hsq : seqCIdx
      (fun i p =>
        if d.pipes_in_use.testBit i then igt_pipe_commit hw s i p
        else ([], p, none))
      0 d.pipes with ⟨t, ps, e⟩
  exact ⟨rfl, rfl⟩

/-- a successful walk of the in-use pipes rewrites the pipe list to its
cleaned form. -/
theorem seqCIdx_commit_ok_clean {hw : DriverCall → Int} {s : igt_commit_style}
    {in_use : Nat} :
    ∀ (pipes : List igt_pipe) (i : Nat) {t : List DriverCall} {ps : List igt_pipe},
      seqCIdx
        (fun j p => if in_use.testBit j then igt_pipe_commit hw s j p
          else ([], p, none)) i pipes = (t, ps, none) →
      ps = cleanPipesFrom in_use i pipes := by
  intro pipes
  induction pipes with
  | nil =>
    intro i t ps h
    simp only [seqCIdx, Prod.mk.injEq] at h
    rw [← h.2.1]
    rfl
  | cons p pipes ih =>
    intro i t ps h
    rcases h1 : (if in_use.testBit i then igt_pipe_commit hw s i p
        else ([], p, none)) with ⟨t1, p1, e1⟩
    cases e1 with
    | some err =>
      simp only [seqCIdx, h1, Prod.mk.injEq] at h
      exact absurd h.2.2 (by simp)
    | none =>
      rcases h2 : seqCIdx
          (fun j p => if in_use.testBit j then igt_pipe_commit hw s j p
            else ([], p, none)) (i + 1) pipes with ⟨t2, ps2, e2⟩
      simp only [seqCIdx, h1, h2, Prod.mk.injEq] at h
      cases e2 with
      | some err => exact absurd h.2.2 (by simp)
      | none =>
        have hp1 : p1 = if in_use.testBit i then cleanPipe p else p := by
          by_cases hb : in_use.testBit i
          · rw [if_pos hb] at h1
            rw [if_pos hb]
            exact pipe_commit_ok h1
          · rw [if_neg hb] at h1
            rw [if_neg hb]
            simp only [Prod.mk.injEq] at h1
            exact h1.2.1.symm
        rw [← h.2.1, hp1, ih (i + 1) h2]
        rfl

/-- a successful hardware phase returns the display with exactly the
committed dirty bits cleared, and every issued call succeeded. -/
theorem display_commit_pipes_ok {hw : DriverCall → Int} {s : igt_commit_style}
    {d : igt_display} {t : List DriverCall} {d' : igt_display}
    (h : igt_display_commit_pipes hw s d = (t, d', none)) :
    d' = { d with pipes := cleanPipesFrom d.pipes_in_use 0 d.pipes } ∧
    allOk hw t := by
  have hg := goodRun_display_commit_pipes hw s d
  rw [h] at hg
  unfold igt_display_commit_pipes at h
  rcases hsq : seqCIdx
      (fun i p =>
        if d.pipes_in_use.testBit i then igt_pipe_commit hw s i p
        else ([], p, none))
      0 d.pipes with ⟨ts, ps, es⟩
  rw [hsq] at h
  simp only [Prod.mk.injEq] at h
  cases es with
  | some err => exact absurd h.2.2 (by simp)
  | none =>
    refine ⟨?_, hg⟩
    rw [← h.2.1, seqCIdx_commit_ok_clean d.pipes 0 hsq]

/-- the hardware phase does nothing on a display whose in-use pipes are
all quiescent. -/
theorem display_commit_pipes_quiescent {hw : DriverCall → Int}
    {s : igt_commit_style} {d : igt_display}
    (h : ∀ k pp, d.pipes[k]? = some pp →
      d.pipes_in_use.testBit k = true → quiescentPipe pp) :
    igt_display_commit_pipes hw s d = ([], d, none) := by
  unfold igt_display_commit_pipes
  rw [seqCIdx_pure d.pipes 0 (fun k pp hk => by
    by_cases hb : d.pipes_in_use.testBit (0 + k)
    · rw [if_pos hb]
      exact pipe_commit_quiescent (h k pp hk (by rwa [Nat.zero_add] at hb))
    · rw [if_neg hb])]

/-- every in-use pipe of a cleaned pipe list is quiescent. -/
theorem cleanPipesFrom_quiescent {in_use : Nat} :
    ∀ (pipes : List igt_pipe) (i k : Nat) (pp : igt_pipe),
      (cleanPipesFrom in_use i pipes)[k]? = some pp →
      in_use.testBit (i + k) = true → quiescentPipe pp := by
  intro pipes
  induction pipes with
  | nil => intro i k pp h _; simp [cleanPipesFrom] at h
  | cons p pipes ih =>
    intro i k pp h hbit
    cases k with
    | zero =>
      simp only [cleanPipesFrom, List.getElem?_cons_zero, Option.some.injEq] at h
      rw [Nat.add_zero] at hbit
      rw [if_pos hbit] at h
      rw [← h]
      constructor
      · intro q hq
        simp only [cleanPipe, List.mem_map] at hq
        obtain ⟨q0, -, rfl⟩ := hq
        simp [planeDirty, planeFieldsDirty, clearPlaneAll]
      · intro hb
        simp only [cleanPipe, Bool.and_eq_true, beq_iff_eq] at hb
        exact hb.2
    | succ k =>
      simp only [cleanPipesFrom, List.getElem?_cons_succ] at h
      have := ih (i + 1) k pp h
      rw [show i + 1 + k = i + (k + 1) by omega] at this
      exact this hbit

/-- a successful resolution returns a pipe whose bit is set in both the
connector's possible-CRTCs mask and the allowed mask, in range, and
minimal among such indices. -/
theorem connector_config_ok_bits {dev : DrmDevice} {cid mask : Nat}
    {cfg : kmstest_connector_config} {c : Connector}
    (hfind : dev.connectors.find? (fun x => x.id == cid) = some c)
    (h : kmstest_get_connector_config dev cid mask = Except.ok cfg) :
    c.possible_crtcs.testBit cfg.pipe = true ∧ mask.testBit cfg.pipe = true ∧
    cfg.pipe < dev.count_crtcs ∧
    ∀ k, k < cfg.pipe →
      ¬(c.possible_crtcs.testBit k = true ∧ mask.testBit k = true) := by
  unfold kmstest_get_connector_config at h
  simp only [hfind] at h
  cases hidx : findCrtcIdx c.possible_crtcs mask dev.count_crtcs with
  | none => simp only [hidx] at h; cases h
  | some idx =>
    simp only [hidx] at h
    cases hm : kmstest_get_connector_default_mode c.modes with
    | error e => simp only [hm] at h; cases h
    | ok m =>
      simp only [hm] at h
      injection h with hh
      have hpipe : cfg.pipe = idx := by rw [← hh]
      unfold findCrtcIdx at hidx
      obtain ⟨h1, h2, -, h4, h5⟩ :=
        findCrtcIdxFrom_some c.possible_crtcs mask dev.count_crtcs 0 idx hidx
      rw [hpipe]
      exact ⟨h1, h2, by omega, fun k hk => h5 k (Nat.zero_le k) hk⟩

/-- case analysis of resolving one output: either it is skipped
unchanged, or it becomes valid on a pipe that was not in use and is now
marked in use. -/
theorem resolveOutput_cases {dev : DrmDevice} {u : Nat} {o o' : igt_output_t}
    {u' : Nat} (h : igt_output_resolve dev u o = Except.ok (o', u')) :
    (o' = o ∧ u' = u) ∨
    (o.valid = false ∧ ∃ cfg,
      o' = { o with valid := true, config := some cfg } ∧
      u.testBit cfg.pipe = false ∧ u' = u ||| 2 ^ cfg.pipe ∧
      cfg.pipe < dev.count_crtcs) := by
  unfold igt_output_resolve at h
  by_cases hc : (o.valid || (o.pending_crtc_idx_mask == 0)) = true
  · rw [if_pos hc] at h
    injection h with hh
    simp only [Prod.mk.injEq] at hh
    exact Or.inl ⟨hh.1.symm, hh.2.symm⟩
  · rw [if_neg hc] at h
    have hval : o.valid = false := by
      simp only [Bool.or_eq_true, not_or] at hc
      cases hb : o.valid with
      | true => exact absurd (Or.inl hb) (by
          intro hx
          rcases hx with hx | hx
          · exact hc.1 hx
          · exact hc.2 hx)
      | false => rfl
    cases hcfg : kmstest_get_connector_config dev o.id
        (maskClear o.pending_crtc_idx_mask u) with
    | error e => rw [hcfg] at h; cases h
    | ok cfg =>
      rw [hcfg] at h
      injection h with hh
      simp only [Prod.mk.injEq] at hh
      have hfind :
          ∃ c, dev.connectors.find? (fun x => x.id == o.id) = some c := by
        unfold kmstest_get_connector_config at hcfg
        cases hf : dev.connectors.find? (fun x => x.id == o.id) with
        | none => rw [hf] at hcfg; cases hcfg
        | some c => exact ⟨c, rfl⟩
      obtain ⟨c, hfind⟩ := hfind
      obtain ⟨-, hmask, hrange, -⟩ := connector_config_ok_bits hfind hcfg
      rw [maskClear_testBit, Bool.and_eq_true] at hmask
      refine Or.inr ⟨hval, cfg, hh.1.symm, ?_, hh.2.symm, hrange⟩
      have := hmask.2
      cases hb : u.testBit cfg.pipe with
      | false => rfl
      | true => rw [hb] at this; cases this

/-- outputs that are all valid or without candidates are skipped
wholesale by resolution. -/
theorem resolve_outputs_skip {dev : DrmDevice} :
    ∀ (os : List igt_output_t) (u : Nat),
      (∀ o ∈ os, o.valid = true ∨ o.pending_crtc_idx_mask = 0) →
      igt_display_resolve_outputs dev u os = Except.ok (os, u) := by
  intro os
  induction os with
  | nil => intro u _; rfl
  | cons o os ih =>
    intro u h
    have hcond : (o.valid || (o.pending_crtc_idx_mask == 0)) = true := by
      rcases h o (List.mem_cons_self o os) with hv | hp
      · rw [hv, Bool.true_or]
      · rw [hp]
        simp
    have hskip : igt_output_resolve dev u o = Except.ok (o, u) := by
      unfold igt_output_resolve
      rw [if_pos hcond]
    simp only [igt_display_resolve_outputs, hskip,
      ih u (fun b hb => h b (List.mem_cons_of_mem o hb))]

/-- resolution of a fully resolved display is the identity. -/
theorem refresh_resolved {dev : DrmDevice} {d : igt_display}
    (h : resolvedDisplay d) : igt_display_refresh dev d = Except.ok d := by
  unfold igt_display_refresh
  rw [resolve_outputs_skip d.outputs d.pipes_in_use h]

/-- after a successful resolution phase every output is valid or has no
pending candidates. -/
theorem resolve_outputs_resolved {dev : DrmDevice} :
    ∀ (os : List igt_output_t) (u : Nat) {os' : List igt_output_t} {u'' : Nat},
      igt_display_resolve_outputs dev u os = Except.ok (os', u'') →
      ∀ o' ∈ os', o'.valid = true ∨ o'.pending_crtc_idx_mask = 0 := by
  intro os
  induction os with
  | nil =>
    intro u os' u'' h o' ho'
    simp only [igt_display_resolve_outputs] at h
    injection h with hh
    simp only [Prod.mk.injEq] at hh
    rw [← hh.1] at ho'
    cases ho'
  | cons o os ih =>
    intro u os' u'' h o' ho'
    simp only [igt_display_resolve_outputs] at h
    cases hro : igt_output_resolve dev u o with
    | error e => simp only [hro] at h; cases h
    | ok ou =>
      obtain ⟨o1, u1⟩ := ou
      simp only [hro] at h
      cases hrs : igt_display_resolve_outputs dev u1 os with
      | error e => simp only [hrs] at h; cases h
      | ok osu =>
        obtain ⟨os1, u2⟩ := osu
        simp only [hrs] at h
        injection h with hh
        simp only [Prod.mk.injEq] at hh
        rw [← hh.1] at ho'
        rcases List.mem_cons.1 ho' with rfl | hmem
        · rcases resolveOutput_cases hro with ⟨rfl, -⟩ | ⟨-, cfg, ho1, -⟩
          · -- skipped: the skip condition held
            unfold igt_output_resolve at hro
            by_cases hc : (o'.valid || (o'.pending_crtc_idx_mask == 0)) = true
            · rcases Bool.or_eq_true .. ▸ hc with hv | hp
              · exact Or.inl hv
              · exact Or.inr (by simpa using hp)
            · rw [if_neg hc] at hro
              cases hcfg : kmstest_get_connector_config dev o'.id
                  (maskClear o'.pending_crtc_idx_mask u) with
              | error e => rw [hcfg] at hro; cases hro
              | ok cfg =>
                rw [hcfg] at hro
                injection hro with hh2
                simp only [Prod.mk.injEq] at hh2
                have : o'.valid = true := by
                  rw [← hh2.1]
                exact Or.inl this
          · rw [ho1]
            exact Or.inl rfl
        · exact ih u1 hrs o' hmem

/-- resolution preserves the pipe-claiming invariant: the in-use mask
only grows, every valid output keeps a claimed in-use pipe, the claimed
pipes stay pairwise distinct, and every newly valid output claimed a pipe
that was free beforehand. -/
theorem resolve_outputs_invariant {dev : DrmDevice} :
    ∀ (os : List igt_output_t) (u : Nat) {os' : List igt_output_t} {u'' : Nat},
      (∀ o ∈ os, o.valid = true →
        ∃ cfg, o.config = some cfg ∧ u.testBit cfg.pipe = true) →
      List.Pairwise distinctPipes os →
      igt_display_resolve_outputs dev u os = Except.ok (os', u'') →
      (∀ i, u.testBit i = true → u''.testBit i = true) ∧
      (∀ o' ∈ os', o'.valid = true →
        ∃ cfg, o'.config = some cfg ∧ u''.testBit cfg.pipe = true) ∧
      List.Pairwise distinctPipes os' ∧
      (∀ o' ∈ os', o'.valid = true →
        o' ∈ os ∨ ∃ cfg, o'.config = some cfg ∧ u.testBit cfg.pipe = false) := by
  intro os
  induction os with
  | nil =>
    intro u os' u'' H1 H2 h
    simp only [igt_display_resolve_outputs] at h
    injection h with hh
    simp only [Prod.mk.injEq] at hh
    obtain ⟨rfl, rfl⟩ : os' = [] ∧ u'' = u := ⟨hh.1.symm, hh.2.symm⟩
    exact ⟨fun i hi => hi, by simp, List.Pairwise.nil, by simp⟩
  | cons o os ih =>
    intro u os' u'' H1 H2 h
    simp only [igt_display_resolve_outputs] at h
    cases hro : igt_output_resolve dev u o with
    | error e => simp only [hro] at h; cases h
    | ok ou =>
      obtain ⟨o1, u1⟩ := ou
      simp only [hro] at h
      cases hrs : igt_display_resolve_outputs dev u1 os with
      | error e => simp only [hrs] at h; cases h
      | ok osu =>
        obtain ⟨os1, u2⟩ := osu
        simp only [hrs] at h
        injection h with hh
        simp only [Prod.mk.injEq] at hh
        obtain ⟨rfl, rfl⟩ : os' = o1 :: os1 ∧ u'' = u2 := ⟨hh.1.symm, hh.2.symm⟩
        have H2head := (List.pairwise_cons.1 H2).1
        have H2t := (List.pairwise_cons.1 H2).2
        rcases resolveOutput_cases hro with hskip | hnew
        · -- output skipped unchanged
          obtain ⟨ho1eq, hu1eq⟩ := hskip
          subst ho1eq
          subst hu1eq
          have H1t : ∀ b ∈ os, b.valid = true →
              ∃ cfg, b.config = some cfg ∧ u1.testBit cfg.pipe = true :=
            fun b hb => H1 b (List.mem_cons_of_mem o1 hb)
          have H1head := H1 o1 (List.mem_cons_self o1 os)
          obtain ⟨mono, Hval, Hpw, Hnew⟩ := ih u1 H1t H2t hrs
          refine ⟨mono, ?_, ?_, ?_⟩
          · intro o' ho' hv
            rcases List.mem_cons.1 ho' with rfl | hmem
            · obtain ⟨cfg, hcfg, hbit⟩ := H1head hv
              exact ⟨cfg, hcfg, mono _ hbit⟩
            · exact Hval o' hmem hv
          · rw [List.pairwise_cons]
            refine ⟨?_, Hpw⟩
            intro b hb hov hbv c1 cb hc1 hcb hpe
            obtain ⟨cfg0, hcfg0, hbit0⟩ := H1head hov
            rw [hc1] at hcfg0
            injection hcfg0 with hcfg0
            have hbit0' : u1.testBit c1.pipe = true := by
              rw [hcfg0]
              exact hbit0
            rcases Hnew b hb hbv with hbmem | ⟨cb2, hcb2, hbit2⟩
            · exact H2head b hbmem hov hbv c1 cb hc1 hcb hpe
            · rw [hcb] at hcb2
              injection hcb2 with hcb2
              have hbit2' : u1.testBit cb.pipe = false := by
                rw [hcb2]
                exact hbit2
              rw [hpe] at hbit0'
              rw [hbit0'] at hbit2'
              cases hbit2'
          · intro o' ho' hv
            rcases List.mem_cons.1 ho' with rfl | hmem
            · exact Or.inl (List.mem_cons_self o' os)
            · rcases Hnew o' hmem hv with hmem2 | hright
              · exact Or.inl (List.mem_cons_of_mem o1 hmem2)
              · exact Or.inr hright
        · -- output freshly resolved
          obtain ⟨hval, cfg, ho1, hfree, hu1, -⟩ := hnew
          have hmono01 : ∀ i, u.testBit i = true → u1.testBit i = true := by
            intro i hi
            rw [hu1, Nat.testBit_lor, hi]
            rfl
          have H1t : ∀ b ∈ os, b.valid = true →
              ∃ cfg2, b.config = some cfg2 ∧ u1.testBit cfg2.pipe = true := by
            intro b hb hbv
            obtain ⟨cfg2, hcfg2, hbit2⟩ := H1 b (List.mem_cons_of_mem o hb) hbv
            exact ⟨cfg2, hcfg2, hmono01 _ hbit2⟩
          obtain ⟨mono1, Hval, Hpw, Hnew⟩ := ih u1 H1t H2t hrs
          have hcfg_in_u1 : u1.testBit cfg.pipe = true := by
            rw [hu1, Nat.testBit_lor, Nat.testBit_two_pow_self]
            simp
          have ho1cfg : o1.config = some cfg := by rw [ho1]
          refine ⟨fun i hi => mono1 i (hmono01 i hi), ?_, ?_, ?_⟩
          · intro o' ho' hv
            rcases List.mem_cons.1 ho' with rfl | hmem
            · exact ⟨cfg, ho1cfg, mono1 _ hcfg_in_u1⟩
            · exact Hval o' hmem hv
          · rw [List.pairwise_cons]
            refine ⟨?_, Hpw⟩
            intro b hb hov hbv c1 cb hc1 hcb hpe
            rw [ho1cfg] at hc1
            injection hc1 with hc1
            have hc1pipe : u1.testBit c1.pipe = true := by
              rw [← hc1]
              exact hcfg_in_u1
            have hc1free : u.testBit c1.pipe = false := by
              rw [← hc1]
              exact hfree
            rcases Hnew b hb hbv with hbmem | ⟨cb2, hcb2, hbit2⟩
            · obtain ⟨cb3, hcb3, hbit3⟩ := H1 b (List.mem_cons_of_mem o hbmem) hbv
              rw [hcb] at hcb3
              injection hcb3 with hcb3
              have hbit3' : u.testBit cb.pipe = true := by
                rw [hcb3]
                exact hbit3
              rw [hpe] at hc1free
              rw [hbit3'] at hc1free
              cases hc1free
            · rw [hcb] at hcb2
              injection hcb2 with hcb2
              have hbit2' : u1.testBit cb.pipe = false := by
                rw [hcb2]
                exact hbit2
              rw [hpe] at hc1pipe
              rw [hc1pipe] at hbit2'
              cases hbit2'
          · intro o' ho' hv
            rcases List.mem_cons.1 ho' with rfl | hmem
            · exact Or.inr ⟨cfg, by rw [ho1], hfree⟩
            · rcases Hnew o' hmem hv with hmem2 | ⟨cfg2, hcfg2, hbit2⟩
              · exact Or.inl (List.mem_cons_of_mem o hmem2)
              · refine Or.inr ⟨cfg2, hcfg2, ?_⟩
                cases hb2 : u.testBit cfg2.pipe with
                | false => rfl
                | true =>
                  rw [hmono01 _ hb2] at hbit2
                  cases hbit2

/-- a successful indexed iteration applied a successful step to every
element at its index. -/
theorem seqCIdx_ok_all {α : Type} {f : Nat → α → CResult α} :
    ∀ {as : List α} {i : Nat} {t : List DriverCall} {as' : List α},
      seqCIdx f i as = (t, as', none) →
      ∀ k a, as[k]? = some a → ∃ t' a', f (i + k) a = (t', a', none) := by
  intro as
  induction as with
  | nil => intro i t as' _ k a hk; simp at hk
  | cons a as ih =>
    intro i t as' h k b hk
    rcases h' : f i a with ⟨t1, a1, e1⟩
    cases e1 with
    | some err =>
      simp only [seqCIdx, h', Prod.mk.injEq] at h
      exact absurd h.2.2 (by simp)
    | none =>
      rcases h2 : seqCIdx f (i + 1) as with ⟨t2, as2, e2⟩
      simp only [seqCIdx, h', h2, Prod.mk.injEq] at h
      cases e2 with
      | some err => exact absurd h.2.2 (by simp)
      | none =>
        cases k with
        | zero =>
          simp only [List.getElem?_cons_zero, Option.some.injEq] at hk
          rw [Nat.add_zero, ← hk]
          exact ⟨t1, a1, h'⟩
        | succ k =>
          simp only [List.getElem?_cons_succ] at hk
          have := ih h2 k b hk
          rwa [show i + 1 + k = i + (k + 1) by omega] at this

/-- a failing indexed iteration pinpoints a failing element, whose
partial result is kept in the returned list. -/
theorem seqCIdx_error_mem {α : Type} {f : Nat → α → CResult α} :
    ∀ {as : List α} {i : Nat} {t : List DriverCall} {as' : List α}
      {e : CommitError},
      seqCIdx f i as = (t, as', some e) →
      ∃ j a t' a', a ∈ as ∧ f j a = (t', a', some e) ∧ a' ∈ as' := by
  intro as
  induction as with
  | nil =>
    intro i t as' e h
    simp only [seqCIdx, Prod.mk.injEq] at h
    exact absurd h.2.2 (by simp)
  | cons a as ih =>
    intro i t as' e h
    rcases h' : f i a with ⟨t1, a1, e1⟩
    cases e1 with
    | some err =>
      simp only [seqCIdx, h', Prod.mk.injEq, Option.some.injEq] at h
      exact ⟨i, a, t1, a1, List.mem_cons_self a as,
        by rw [h', h.2.2], by rw [← h.2.1]; exact List.mem_cons_self a1 as⟩
    | none =>
      rcases h2 : seqCIdx f (i + 1) as with ⟨t2, as2, e2⟩
      simp only [seqCIdx, h', h2, Prod.mk.injEq] at h
      cases e2 with
      | none => exact absurd h.2.2 (by simp)
      | some err =>
        obtain ⟨rfl⟩ : err = e := by
          have := h.2.2
          simp only [Option.some.injEq] at this
          exact this
        obtain ⟨j, b, t', b', hmem, hfb, hmem'⟩ := ih h2
        exact ⟨j, b, t', b', List.mem_cons_of_mem a hmem, hfb,
          by rw [← h.2.1]; exact List.mem_cons_of_mem a1 hmem'⟩

/-- every driver call issued by a legacy plane commit is a CRTC, cursor
or property call, never the universal per-plane call. -/
theorem legacy_plane_trace_no_setPlane {hw : DriverCall → Int} {i : Nat}
    {p : igt_plane_t} :
    ∀ c ∈ (igt_plane_commit_legacy hw i p).1, isSetPlaneCall c = false := by
  intro c hc
  have hrot : ∀ q : igt_plane_t,
      ∀ c' ∈ (igt_plane_commit_rotation hw q).1, isSetPlaneCall c' = false := by
    intro q c' hc'
    unfold igt_plane_commit_rotation at hc'
    by_cases h1 : q.rotation_changed = false
    · rw [if_pos h1] at hc'
      cases hc'
    · rw [if_neg h1] at hc'
      by_cases h2 : igt_plane_supports_rotation q
      · rw [if_pos h2] at hc'
        rw [mem_hwCall_trace hc']
        rfl
      · rw [if_neg h2] at hc'
        cases hc'
  unfold igt_plane_commit_legacy at hc
  by_cases hp : p.is_primary
  · rw [if_pos hp] at hc
    rcases mem_candThen_trace hc with hc1 | ⟨q, hc2⟩
    · by_cases hf : planeFieldsDirty p
      · rw [if_pos hf] at hc1
        rw [mem_hwCall_trace hc1]
        rfl
      · rw [if_neg hf] at hc1
        cases hc1
    · exact hrot q c hc2
  · rw [if_neg hp] at hc
    by_cases hcur : p.is_cursor
    · rw [if_pos hcur] at hc
      rcases mem_candThen_trace hc with hc1 | ⟨q, hc2⟩
      · by_cases hf : planeFieldsDirty p
        · rw [if_pos hf] at hc1
          rw [mem_hwCall_trace hc1]
          rfl
        · rw [if_neg hf] at hc1
          cases hc1
      · exact hrot q c hc2
    · rw [if_neg hcur] at hc
      by_cases hd : planeDirty p
      · rw [if_pos hd] at hc
        cases hc
      · rw [if_neg hd] at hc
        cases hc

/-- every driver call issued by a legacy pipe commit is never the
universal per-plane call. -/
theorem legacy_pipe_trace_no_setPlane {hw : DriverCall → Int} {i : Nat}
    {pp : igt_pipe} :
    ∀ c ∈ (igt_pipe_commit hw igt_commit_style.COMMIT_LEGACY i pp).1,
      isSetPlaneCall c = false := by
  intro c hc
  unfold igt_pipe_commit at hc
  rcases mem_candThen_trace hc with hc1 | ⟨x, hc2⟩
  · rcases mem_candThen_trace hc1 with hc3 | ⟨y, hc4⟩
    · cases hc3
    · unfold igt_pipe_commit_planes at hc4
      rcases hsq : seqC (igt_plane_commit hw igt_commit_style.COMMIT_LEGACY i)
          y.planes with ⟨ts, ps, es⟩
      rw [hsq] at hc4
      obtain ⟨q, -, hcq⟩ := mem_seqC_trace (by rw [hsq]; exact hc4)
      exact legacy_plane_trace_no_setPlane c hcq
  · unfold igt_pipe_commit_background at hc2
    by_cases hb : x.background_changed && (x.background_property != 0)
    · rw [if_pos hb] at hc2
      rw [mem_hwCall_trace hc2]
      rfl
    · rw [if_neg hb] at hc2
      cases hc2

/-- the lengths of equal-length blocks sum to a multiple of the block
size. -/
theorem sum_map_length_const {exts : List (List Nat)}
    (h : ∀ e ∈ exts, e.length = 128) :
    (exts.map List.length).sum = 128 * exts.length := by
  induction exts with
  | nil => rfl
  | cons e exts ih =>
    simp only [List.map_cons, List.sum_cons, List.length_cons,
      h e (List.mem_cons_self e exts),
      ih (fun x hx => h x (List.mem_cons_of_mem e hx))]
    ring

/-- scanning the loaded-module list always reports success, whether or
not a name matches. -/
theorem lsmod_scan_true (name : String) :
    ∀ mods : List String, lsmod_scan name mods = true := by
  intro mods
  induction mods with
  | nil => rfl
  | cons m mods ih =>
    unfold lsmod_scan
    by_cases hm : kmod_name_matches m name = true
    · rw [if_pos hm]
    · rw [if_neg hm]
      exact ih

/-- Claim C2: for every connector id and allowed-pipe mask, the resolver
either fails or returns a configuration whose pipe index is the
lowest-numbered index whose bit is set both in the connector's encoder
possible-CRTCs mask and in the allowed mask; it never returns a pipe
outside either mask, and it fails with NoSuitablePipe when the two masks
have an empty intersection. -/
theorem C2_resolver_pipe_selection (dev : DrmDevice) (cid mask : Nat)
    (c : Connector)
    (hfind : dev.connectors.find? (fun x => x.id == cid) = some c) :
    ((∀ i, ¬(c.possible_crtcs.testBit i = true ∧ mask.testBit i = true)) →
      kmstest_get_connector_config dev cid mask =
        Except.error CommitError.NoSuitablePipe) ∧
    (∀ cfg, kmstest_get_connector_config dev cid mask = Except.ok cfg →
      c.possible_crtcs.testBit cfg.pipe = true ∧
      mask.testBit cfg.pipe = true ∧
      ∀ j, j < cfg.pipe →
        ¬(c.possible_crtcs.testBit j = true ∧ mask.testBit j = true)) := by
  constructor
  · intro hempty
    unfold kmstest_get_connector_config
    simp only [hfind]
    cases hidx : findCrtcIdx c.possible_crtcs mask dev.count_crtcs with
    | none => simp only [hidx]
    | some idx =>
      exfalso
      unfold findCrtcIdx at hidx
      obtain ⟨h1, h2, -, -, -⟩ :=
        findCrtcIdxFrom_some c.possible_crtcs mask dev.count_crtcs 0 idx hidx
      exact hempty idx ⟨h1, h2⟩
  · intro cfg h
    obtain ⟨h1, h2, -, h4⟩ := connector_config_ok_bits hfind h
    exact ⟨h1, h2, h4⟩

/-- Claim C6: if resolving any output's pending pipe assignment fails
during commit, the whole commit aborts before any hardware mutation: the
trace is empty, the resolution error is returned, and the display model
is returned unchanged. -/
theorem C6_resolution_failure_atomic (hw : DriverCall → Int)
    (dev : DrmDevice) (d : igt_display) (s : igt_commit_style)
    (e : CommitError) (h : igt_display_refresh dev d = Except.error e) :
    igt_display_try_commit2 hw dev d s = ([], d, some e) := by
  unfold igt_display_try_commit2
  simp only [h]

/-- Claim C3: at most one output of a display holds a given pipe index in
the in-use bitmask — the invariant is preserved by the whole commit entry
point — and a successful resolution never assigns an output to a pipe
whose bit was already set in the in-use mask (so assigning a second
output to an in-use pipe must fail). -/
theorem C3_pipe_claim_invariant :
    (∀ (hw : DriverCall → Int) (dev : DrmDevice) (d : igt_display)
        (s : igt_commit_style),
      DisplayInv d →
      DisplayInv (igt_display_try_commit2 hw dev d s).2.1) ∧
    (∀ (dev : DrmDevice) (u : Nat) (o o' : igt_output_t) (u' : Nat),
      o.valid = false →
      igt_output_resolve dev u o = Except.ok (o', u') →
      ∀ cfg, o'.config = some cfg → o'.valid = true →
        u.testBit cfg.pipe = false) := by
  constructor
  · intro hw dev d s hInv
    unfold igt_display_try_commit2
    cases hr : igt_display_refresh dev d with
    | error e =>
      simp only [hr]
      exact hInv
    | ok d1 =>
      simp only [hr]
      have h1 : DisplayInv d1 := by
        unfold igt_display_refresh at hr
        cases hro : igt_display_resolve_outputs dev d.pipes_in_use d.outputs with
        | error e => simp only [hro] at hr; cases hr
        | ok osu =>
          obtain ⟨os1, u1⟩ := osu
          simp only [hro] at hr
          injection hr with hr
          obtain ⟨-, Hval, Hpw, -⟩ :=
            resolve_outputs_invariant d.outputs d.pipes_in_use hInv.1 hInv.2 hro
          rw [← hr]
          exact ⟨Hval, Hpw⟩
      have hframe := @display_commit_pipes_frame hw s d1
      constructor
      · rw [hframe.1, hframe.2]
        exact h1.1
      · rw [hframe.1]
        exact h1.2
  · intro dev u o o' u' hval h cfg hcfg hval'
    rcases resolveOutput_cases h with ⟨rfl, -⟩ | ⟨-, cfg2, ho', hfree, -, -⟩
    · rw [hval] at hval'
      cases hval'
    · rw [ho'] at hcfg
      simp only [Option.some.injEq] at hcfg
      rw [hcfg] at hfree
      exact hfree

/-- Claim C5: committing a clean, fully resolved display issues zero
hardware calls, returns success and leaves the display unchanged; hence
of two sequential commits with no state change in between, the second is
a no-op issuing zero hardware calls. -/
theorem C5_commit_idempotence :
    (∀ (hw : DriverCall → Int) (dev : DrmDevice) (d : igt_display)
        (s : igt_commit_style),
      cleanDisplay d → resolvedDisplay d →
      igt_display_try_commit2 hw dev d s = ([], d, none)) ∧
    (∀ (hw : DriverCall → Int) (dev : DrmDevice) (d : igt_display)
        (s : igt_commit_style) (t : List DriverCall) (d' : igt_display),
      igt_display_try_commit2 hw dev d s = (t, d', none) →
      igt_display_try_commit2 hw dev d' s = ([], d', none)) := by
  have key : ∀ (hw : DriverCall → Int) (dev : DrmDevice) (d : igt_display)
      (s : igt_commit_style),
      resolvedDisplay d →
      (∀ k pp, d.pipes[k]? = some pp →
        d.pipes_in_use.testBit k = true → quiescentPipe pp) →
      igt_display_try_commit2 hw dev d s = ([], d, none) := by
    intro hw dev d s hres hq
    unfold igt_display_try_commit2
    rw [refresh_resolved hres]
    exact display_commit_pipes_quiescent hq
  constructor
  · intro hw dev d s hclean hres
    refine key hw dev d s hres ?_
    intro k pp hk hbit
    have hmem : pp ∈ d.pipes := by
      have := List.getElem?_eq_some_iff.1 hk
      obtain ⟨hlt, hget⟩ := this
      rw [← hget]
      exact List.getElem_mem hlt
    obtain ⟨hpl, hbg⟩ := hclean pp hmem
    refine ⟨hpl, ?_⟩
    intro hb
    rw [hbg] at hb
    cases hb
  · intro hw dev d s t d' h
    unfold igt_display_try_commit2 at h
    cases hr : igt_display_refresh dev d with
    | error e =>
      simp only [hr, Prod.mk.injEq] at h
      exact absurd h.2.2 (by simp)
    | ok d1 =>
      simp only [hr] at h
      obtain ⟨hd', -⟩ := display_commit_pipes_ok h
      have hres1 : resolvedDisplay d1 := by
        unfold igt_display_refresh at hr
        cases hro : igt_display_resolve_outputs dev d.pipes_in_use d.outputs with
        | error e => simp only [hro] at hr; cases hr
        | ok osu =>
          obtain ⟨os1, u1⟩ := osu
          simp only [hro] at hr
          injection hr with hr
          intro o ho
          rw [← hr] at ho
          exact resolve_outputs_resolved d.outputs d.pipes_in_use hro o ho
      have hres' : resolvedDisplay d' := by
        intro o ho
        rw [hd'] at ho
        exact hres1 o ho
      refine key hw dev d' s hres' ?_
      intro k pp hk hbit
      rw [hd'] at hk hbit
      exact cleanPipesFrom_quiescent d1.pipes 0 k pp hk
        (by rwa [Nat.zero_add])

/-- Claim C1: during the hardware-programming phase of commit, for every
display and style, a kernel error code on a driver call stops all further
calls — the trace is a successful prefix followed by exactly the failing
call, whose code is returned, with no rollback of the prefix — and on
full success every issued call succeeded, success (the 0 return code) is
returned, and exactly the dirty bits of the committed fields are
cleared. -/
theorem C1_commit_first_error_or_clean (hw : DriverCall → Int)
    (s : igt_commit_style) (d : igt_display) :
    (∀ e, (igt_display_commit_pipes hw s d).2.2 =
        some (CommitError.HardwareRejected e) →
      ∃ t0 c, (igt_display_commit_pipes hw s d).1 = t0 ++ [c] ∧
        allOk hw t0 ∧ hw c = e ∧ e ≠ 0) ∧
    ((igt_display_commit_pipes hw s d).2.2 = none →
      allOk hw (igt_display_commit_pipes hw s d).1 ∧
      (igt_display_commit_pipes hw s d).2.1 =
        { d with pipes := cleanPipesFrom d.pipes_in_use 0 d.pipes }) := by
  have hg := goodRun_display_commit_pipes hw s d
  rcases hres : igt_display_commit_pipes hw s d with ⟨t, d', e⟩
  rw [hres] at hg
  constructor
  · intro e0 he
    simp only at he
    rw [he] at hg
    exact hg
  · intro he
    simp only at he
    rw [he] at hres
    obtain ⟨h1, h2⟩ := display_commit_pipes_ok hres
    rw [he] at hg
    exact ⟨hg, h1⟩

/-- Claim C7: a legacy-style commit with a dirty overlay plane on an
in-use pipe (and no unsupportable rotation request, every hardware call
succeeding) fails with UnsupportedInLegacyMode, and its trace contains no
per-plane (set-plane) call at all — so zero hardware calls were issued
for the overlay plane, while the calls already issued (such as the CRTC
mode-set call) remain in the trace and are not undone. -/
theorem C7_legacy_overlay_unsupported (hw : DriverCall → Int)
    (d : igt_display) (hhw : ∀ c, hw c = 0)
    (hcap : ∀ pp ∈ d.pipes, ∀ q ∈ pp.planes,
      q.rotation_changed = true → q.rotation_property ≠ 0)
    (hover : ∃ k pp, d.pipes[k]? = some pp ∧
      d.pipes_in_use.testBit k = true ∧
      ∃ q ∈ pp.planes, isOverlay q = true ∧ planeDirty q = true) :
    (igt_display_commit_pipes hw igt_commit_style.COMMIT_LEGACY d).2.2 =
      some CommitError.UnsupportedInLegacyMode ∧
    allOk hw (igt_display_commit_pipes hw igt_commit_style.COMMIT_LEGACY d).1 ∧
    ∀ c ∈ (igt_display_commit_pipes hw igt_commit_style.COMMIT_LEGACY d).1,
      isSetPlaneCall c = false := by
  obtain ⟨k, pp, hk, hbit, q, hq, hov, hdq⟩ := hover
  have hallOk : allOk hw
      (igt_display_commit_pipes hw igt_commit_style.COMMIT_LEGACY d).1 := by
    intro c hc
    exact hhw c
  have hnosp : ∀ c ∈ (igt_display_commit_pipes hw
      igt_commit_style.COMMIT_LEGACY d).1, isSetPlaneCall c = false := by
    intro c hc
    unfold igt_display_commit_pipes at hc
    rcases hsq : seqCIdx
        (fun i p =>
          if d.pipes_in_use.testBit i then
            igt_pipe_commit hw igt_commit_style.COMMIT_LEGACY i p
          else ([], p, none))
        0 d.pipes with ⟨ts, ps, es⟩
    rw [hsq] at hc
    obtain ⟨j, b, -, hcb⟩ := mem_seqCIdx_trace (by rw [hsq]; exact hc)
    by_cases hb : d.pipes_in_use.testBit j
    · rw [if_pos hb] at hcb
      exact legacy_pipe_trace_no_setPlane c hcb
    · rw [if_neg hb] at hcb
      cases hcb
  refine ⟨?_, hallOk, hnosp⟩
  unfold igt_display_commit_pipes
  rcases hsq : seqCIdx
      (fun i p =>
        if d.pipes_in_use.testBit i then
          igt_pipe_commit hw igt_commit_style.COMMIT_LEGACY i p
        else ([], p, none))
      0 d.pipes with ⟨ts, ps, es⟩
  cases es with
  | none =>
    exfalso
    obtain ⟨t', pp', hstep⟩ := seqCIdx_ok_all hsq k pp hk
    rw [Nat.zero_add, if_pos hbit] at hstep
    exact pipe_commit_legacy_overlay_fails hq hov hdq t' pp' hstep
  | some err =>
    obtain ⟨j, b, t', b', hbmem, hstep, -⟩ := seqCIdx_error_mem hsq
    by_cases hb : d.pipes_in_use.testBit j
    · rw [if_pos hb] at hstep
      have := pipe_commit_error_legacy hhw
        (fun q' hq' => hcap b hbmem q' hq') hstep
      rw [this]
    · rw [if_neg hb] at hstep
      simp only [Prod.mk.injEq] at hstep
      exact absurd hstep.2.2 (by simp)

/-- Claim C8: `igt_plane_set_rotation` sets the rotation dirty bit; a
subsequent universal-style commit of a display holding, on an in-use
pipe, a plane with the rotation dirty bit set and rotation property 0
(every hardware call succeeding) fails with RotationUnsupported, and the
resulting display still holds a plane with the rotation dirty bit set and
rotation property 0 — the failed commit did not clear it. -/
theorem C8_rotation_unsupported_keeps_dirty (hw : DriverCall → Int)
    (d : igt_display) :
    (∀ (p : igt_plane_t) (r : igt_rotation_t),
      (igt_plane_set_rotation p r).rotation_changed = true ∧
      (igt_plane_set_rotation p r).rotation_property = p.rotation_property) ∧
    ((∀ c, hw c = 0) →
      (∃ k pp, d.pipes[k]? = some pp ∧
        d.pipes_in_use.testBit k = true ∧
        ∃ q ∈ pp.planes, q.rotation_changed = true ∧ q.rotation_property = 0) →
      (igt_display_commit_pipes hw igt_commit_style.COMMIT_UNIVERSAL d).2.2 =
        some CommitError.RotationUnsupported ∧
      ∃ pp' ∈ (igt_display_commit_pipes hw
          igt_commit_style.COMMIT_UNIVERSAL d).2.1.pipes,
        ∃ q' ∈ pp'.planes,
          q'.rotation_changed = true ∧ q'.rotation_property = 0) := by
  constructor
  · intro p r
    exact ⟨rfl, rfl⟩
  · intro hhw hex
    obtain ⟨k, pp, hk, hbit, q, hq, hrc, hrp⟩ := hex
    unfold igt_display_commit_pipes
    rcases hsq : seqCIdx
        (fun i p =>
          if d.pipes_in_use.testBit i then
            igt_pipe_commit hw igt_commit_style.COMMIT_UNIVERSAL i p
          else ([], p, none))
        0 d.pipes with ⟨ts, ps, es⟩
    cases es with
    | none =>
      exfalso
      obtain ⟨t', pp', hstep⟩ := seqCIdx_ok_all hsq k pp hk
      rw [Nat.zero_add, if_pos hbit] at hstep
      exact pipe_commit_universal_rot_fails hq hrc hrp t' pp' hstep
    | some err =>
      obtain ⟨j, b, t', b', -, hstep, hb'mem⟩ := seqCIdx_error_mem hsq
      by_cases hb : d.pipes_in_use.testBit j
      · rw [if_pos hb] at hstep
        obtain ⟨herr, q', hq', hq'rc, hq'rp⟩ :=
          pipe_commit_error_universal hhw hstep
        rw [herr]
        exact ⟨rfl, b', hb'mem, q', hq', hq'rc, hq'rp⟩
      · rw [if_neg hb] at hstep
        simp only [Prod.mk.injEq] at hstep
        exact absurd hstep.2.2 (by simp)

/-- Claim C4: for every 128-byte base EDID block and appended 128-byte
extension blocks, the output has 128*(1+n) bytes, its first 128 bytes
equal the base except possibly bytes 126 and 127, the rewritten checksum
byte makes the first 128 bytes sum to 0 mod 256, and byte 126 equals the
base's byte 126 plus the number of appended extension blocks. -/
theorem C4_edid_add_extension (base : List Nat) (exts : List (List Nat))
    (hbase : base.length = 128)
    (hexts : ∀ e ∈ exts, e.length = 128)
    (hcount : base.getD 126 0 + exts.length < 256) :
    (add_extension base exts).length = 128 * (1 + exts.length) ∧
    (∀ i, i < 128 → i ≠ 126 → i ≠ 127 →
      (add_extension base exts).getD i 0 = base.getD i 0) ∧
    ((add_extension base exts).take 128).sum % 256 = 0 ∧
    (add_extension base exts).getD 126 0 =
      base.getD 126 0 + exts.length := by
  set v := (base.getD 126 0 + exts.length) % 256 with hv
  set wc := base.set 126 v with hwcdef
  set body := wc.take 127 with hbodydef
  set cs := (256 - body.sum % 256) % 256 with hcs
  have hae : add_extension base exts = body ++ [cs] ++ exts.flatten := rfl
  have hwc_len : wc.length = 128 := by
    rw [hwcdef, List.length_set, hbase]
  have hbody_len : body.length = 127 := by
    rw [hbodydef, List.length_take, hwc_len]
    omega
  refine ⟨?_, ?_, ?_, ?_⟩
  · rw [hae]
    rw [List.append_assoc, List.length_append, List.length_append,
      hbody_len, List.length_flatten, sum_map_length_const hexts]
    simp only [List.length_singleton]
    ring
  · intro i h1 h2 h3
    have hi127 : i < 127 := by omega
    rw [hae, List.append_assoc]
    rw [List.getD_eq_getElem?_getD, List.getD_eq_getElem?_getD]
    rw [List.getElem?_append_left (by rw [hbody_len]; omega)]
    rw [hbodydef, List.getElem?_take_of_lt hi127]
    rw [hwcdef, List.getElem?_set_ne (fun hh => h2 hh.symm)]
  · rw [hae, List.append_assoc]
    have htake : (body ++ ([cs] ++ exts.flatten)).take 128 = body ++ [cs] := by
      rw [List.take_append_eq_append_take]
      rw [List.take_of_length_le (by rw [hbody_len]; omega), hbody_len]
      rfl
    rw [htake, List.sum_append]
    simp only [List.sum_cons, List.sum_nil]
    omega
  · rw [hae, List.append_assoc]
    rw [List.getD_eq_getElem?_getD]
    rw [List.getElem?_append_left (by rw [hbody_len]; omega)]
    rw [hbodydef, List.getElem?_take_of_lt (by omega)]
    rw [hwcdef, List.getElem?_set_self (by rw [hbase]; omega)]
    simp only [Option.getD_some]
    rw [hv, Nat.mod_eq_of_lt hcount]

/-- Claim C9: whenever the loaded-module list can be enumerated,
`lsmod_has_module` returns true regardless of whether a module of that
name is in the list (false only when enumeration fails); consequently the
check after removing i915 in `reload` reports the module as still loaded
— IGT_EXIT_FAILURE — even when removal succeeded. -/
theorem C9_lsmod_has_module_always_true :
    (∀ (mods : List String) (name : String),
      lsmod_has_module (some mods) name = true) ∧
    (∀ name : String, lsmod_has_module none name = false) ∧
    (∀ mods : List String,
      reload_check_after_rmmod (some mods) = ReloadResult.failure) := by
  refine ⟨?_, ?_, ?_⟩
  · intro mods name
    unfold lsmod_has_module
    exact lsmod_scan_true name mods
  · intro name
    rfl
  · intro mods
    unfold reload_check_after_rmmod
    rw [if_pos]
    unfold lsmod_has_module
    exact lsmod_scan_true "i915" mods

/-- Claim C10: for normalized timespec values with start not after end
and an elapsed nanosecond count that fits in 64 bits, `ms_elapsed` equals
the floor of the elapsed time in milliseconds: the exact value of
(10^9 * (end.tv_sec - start.tv_sec) + end.tv_nsec - start.tv_nsec)
divided by 10^6, including the borrow case end.tv_nsec < start.tv_nsec. -/
theorem C10_ms_elapsed_floor (a b : timespec)
    (ha : timespecNormalized a) (hb : timespecNormalized b)
    (hle : timespecLE a b)
    (hfit : (NSEC_PER_SEC : Int) * (b.tv_sec - a.tv_sec) +
        (b.tv_nsec - a.tv_nsec) < 2 ^ 64) :
    (ms_elapsed a b : Int) =
      ((NSEC_PER_SEC : Int) * (b.tv_sec - a.tv_sec) +
        (b.tv_nsec - a.tv_nsec)) / (USEC_PER_SEC : Int) := by
  obtain ⟨ha0, ha1⟩ := ha
  obtain ⟨hb0, hb1⟩ := hb
  have hN : (NSEC_PER_SEC : Int) = 1000000000 := by
    norm_num [NSEC_PER_SEC, USEC_PER_SEC, MSEC_PER_SEC]
  set D := (NSEC_PER_SEC : Int) * (b.tv_sec - a.tv_sec) +
    (b.tv_nsec - a.tv_nsec) with hD
  have hD0 : 0 ≤ D := by
    rw [hD, hN]
    rw [hN] at ha1 hb1
    rcases hle with hlt | ⟨heq, hnle⟩
    · have h1 : 1 ≤ b.tv_sec - a.tv_sec := by omega
      omega
    · rw [heq]
      omega
  have hDlt : D < 2 ^ 64 := hfit
  have hmod : D % (2 ^ 64 : Int) = D := Int.emod_eq_of_lt hD0 hDlt
  unfold ms_elapsed
  rw [← hD, hmod, Int.natCast_div, Int.toNat_of_nonneg hD0]

/-- hardware oracle that accepts every driver call. -/
def hw0 : DriverCall → Int := fun _ => 0

/-- sample preferred 1920x1080 mode. -/
def egMode : drmModeModeInfo := { hdisplay := 1920, vdisplay := 1080, preferred := true }

/-- sample connector whose encoder can use pipes 1 and 2. -/
def egConnector : Connector :=
  { id := 10, encoder := 20, possible_crtcs := 6, modes := [egMode] }

/-- sample device with three CRTCs and one connector. -/
def egDevice : DrmDevice := { count_crtcs := 3, connectors := [egConnector] }

/-- configuration the resolver produces for `egConnector` under mask 4. -/
def egConfig : kmstest_connector_config :=
  { crtc := 2, connector := 10, encoder := 20, default_mode := egMode,
    crtc_idx := 2, pipe := 2 }

/-- configuration the resolver produces for `egConnector` under mask 6. -/
def egConfig1 : kmstest_connector_config :=
  { crtc := 1, connector := 10, encoder := 20, default_mode := egMode,
    crtc_idx := 1, pipe := 1 }

/-- sample unresolved output asking for pipes 1 or 2. -/
def egOutput : igt_output_t :=
  { id := 10, name := "HDMI-A-1", valid := false, pending_crtc_idx_mask := 6,
    config := none, use_override_mode := false, override_mode := egMode }

/-- the resolved form of `egOutput`. -/
def egOutputRes : igt_output_t :=
  { egOutput with valid := true, config := some egConfig1 }

/-- sample unresolved output asking only for pipe 3, which no encoder
supports. -/
def egOutputBad : igt_output_t :=
  { id := 10, name := "HDMI-A-1", valid := false, pending_crtc_idx_mask := 8,
    config := none, use_override_mode := false, override_mode := egMode }

/-- clean primary plane. -/
def egPrimaryClean : igt_plane_t :=
  { index := 0, is_primary := true, is_cursor := false, fb_changed := false,
    position_changed := false, panning_changed := false,
    rotation_changed := false, size_changed := false, fb := some 7,
    rotation_property := 0, crtc_x := 0, crtc_y := 0, crtc_w := 1920,
    crtc_h := 1080, pan_x := 0, pan_y := 0,
    rotation := igt_rotation_t.IGT_ROTATION_0 }

/-- clean cursor plane. -/
def egCursorClean : igt_plane_t :=
  { egPrimaryClean with
    index := 3
    is_primary := false
    is_cursor := true
    fb := none }

/-- primary plane with a dirty framebuffer bit. -/
def egPrimaryDirty : igt_plane_t := { egPrimaryClean with fb_changed := true }

/-- overlay plane with a dirty framebuffer bit. -/
def egOverlayDirty : igt_plane_t :=
  { egPrimaryClean with
    index := 1
    is_primary := false
    fb_changed := true
    fb := some 8 }

/-- overlay plane with a dirty rotation bit and no rotation property. -/
def egRotPlane : igt_plane_t :=
  { egPrimaryClean with
    index := 1
    is_primary := false
    rotation_changed := true
    rotation := igt_rotation_t.IGT_ROTATION_90 }

/-- clean pipe. -/
def egPipeClean : igt_pipe :=
  { pipe := 0, enabled := true, planes := [egPrimaryClean, egCursorClean],
    background := 0, background_changed := false, background_property := 0 }

/-- pipe with a dirty primary plane. -/
def egPipeDirty : igt_pipe :=
  { egPipeClean with planes := [egPrimaryDirty, egCursorClean] }

/-- pipe with a dirty primary plane and a dirty overlay plane. -/
def egPipeC7 : igt_pipe :=
  { egPipeClean with planes := [egPrimaryDirty, egOverlayDirty, egCursorClean] }

/-- pipe holding a rotation-incapable plane with a dirty rotation bit. -/
def egPipeC8 : igt_pipe :=
  { egPipeClean with planes := [egPrimaryClean, egRotPlane] }

/-- clean display using pipe 0, no outputs pending. -/
def egDisplayClean : igt_display :=
  { pipes_in_use := 1, outputs := [], pipes := [egPipeClean],
    has_universal_planes := true }

/-- display with a dirty primary plane on the in-use pipe 0. -/
def egDisplayDirty : igt_display :=
  { egDisplayClean with pipes := [egPipeDirty] }

/-- display with a dirty overlay plane on the in-use pipe 0. -/
def egDisplayC7 : igt_display := { egDisplayClean with pipes := [egPipeC7] }

/-- display with a rotation-incapable dirty-rotation plane on the in-use
pipe 0. -/
def egDisplayC8 : igt_display := { egDisplayClean with pipes := [egPipeC8] }

/-- display whose only output requests an unusable pipe. -/
def egDisplayBad : igt_display :=
  { pipes_in_use := 0, outputs := [egOutputBad], pipes := [egPipeClean],
    has_universal_planes := true }

/-- timespec samples exercising the nanosecond borrow. -/
def tsA : timespec := { tv_sec := 5, tv_nsec := 999999999 }

/-- end timespec for the sample interval. -/
def tsB : timespec := { tv_sec := 7, tv_nsec := 1 }

/-- witness for C1: a universal commit of a display with one dirty
primary plane succeeds with every call accepted and returns the display
with exactly the committed dirty bits cleared. -/
theorem C1_witness :
    allOk hw0 (igt_display_commit_pipes hw0
      igt_commit_style.COMMIT_UNIVERSAL egDisplayDirty).1 ∧
    (igt_display_commit_pipes hw0
        igt_commit_style.COMMIT_UNIVERSAL egDisplayDirty).2.1 =
      { egDisplayDirty with
        pipes := cleanPipesFrom egDisplayDirty.pipes_in_use 0 egDisplayDirty.pipes } :=
  (C1_commit_first_error_or_clean hw0
    igt_commit_style.COMMIT_UNIVERSAL egDisplayDirty).2 rfl

/-- witness for C2: resolving connector 10 under mask 4 picks pipe 2, the
lowest index allowed by both masks. -/
theorem C2_witness :
    egConnector.possible_crtcs.testBit egConfig.pipe = true ∧
    (4 : Nat).testBit egConfig.pipe = true ∧
    ∀ j, j < egConfig.pipe →
      ¬(egConnector.possible_crtcs.testBit j = true ∧
        (4 : Nat).testBit j = true) :=
  (C2_resolver_pipe_selection egDevice 10 4 egConnector rfl).2 egConfig rfl

/-- witness for C3: the invariant holds after a commit of a concrete
display, and a concrete successful resolution lands on a pipe that was
not in use. -/
theorem C3_witness :
    DisplayInv (igt_display_try_commit2 hw0 egDevice egDisplayClean
      igt_commit_style.COMMIT_UNIVERSAL).2.1 ∧
    (0 : Nat).testBit egConfig1.pipe = false :=
  ⟨(C3_pipe_claim_invariant).1 hw0 egDevice egDisplayClean
      igt_commit_style.COMMIT_UNIVERSAL
      ⟨fun o ho => absurd ho (List.not_mem_nil o), List.Pairwise.nil⟩,
   (C3_pipe_claim_invariant).2 egDevice 0 egOutput egOutputRes 2 rfl rfl
      egConfig1 rfl rfl⟩

/-- witness for C4: extending an all-zero base block with one all-zero
extension block yields 256 bytes, preserves bytes 0-125, sums to 0 mod
256 over the base block and bumps the extension count to 1. -/
theorem C4_witness :
    (add_extension (List.replicate 128 0) [List.replicate 128 0]).length =
      128 * (1 + 1) ∧
    (∀ i, i < 128 → i ≠ 126 → i ≠ 127 →
      (add_extension (List.replicate 128 0)
        [List.replicate 128 0]).getD i 0 =
      (List.replicate 128 (0 : Nat)).getD i 0) ∧
    ((add_extension (List.replicate 128 0)
        [List.replicate 128 0]).take 128).sum % 256 = 0 ∧
    (add_extension (List.replicate 128 0) [List.replicate 128 0]).getD 126 0 =
      (List.replicate 128 (0 : Nat)).getD 126 0 + 1 :=
  C4_edid_add_extension (List.replicate 128 0) [List.replicate 128 0]
    (by simp) (by simp) (by simp)

/-- witness for C5: committing the clean resolved display issues zero
calls and returns 0 with the display unchanged. -/
theorem C5_witness :
    igt_display_try_commit2 hw0 egDevice egDisplayClean
      igt_commit_style.COMMIT_UNIVERSAL = ([], egDisplayClean, none) :=
  (C5_commit_idempotence).1 hw0 egDevice egDisplayClean
    igt_commit_style.COMMIT_UNIVERSAL
    (by unfold cleanDisplay; decide) (by unfold resolvedDisplay; decide)

/-- witness for C6: a display whose output can be matched to no pipe
makes commit abort with NoSuitablePipe, zero hardware calls and the
display unchanged. -/
theorem C6_witness :
    igt_display_try_commit2 hw0 egDevice egDisplayBad
      igt_commit_style.COMMIT_LEGACY =
      ([], egDisplayBad, some CommitError.NoSuitablePipe) :=
  C6_resolution_failure_atomic hw0 egDevice egDisplayBad
    igt_commit_style.COMMIT_LEGACY CommitError.NoSuitablePipe rfl

/-- witness for C7: the legacy commit of a display with a dirty overlay
plane fails with UnsupportedInLegacyMode, every call issued succeeded and
none of them is a per-plane call. -/
theorem C7_witness :
    (igt_display_commit_pipes hw0
      igt_commit_style.COMMIT_LEGACY egDisplayC7).2.2 =
      some CommitError.UnsupportedInLegacyMode ∧
    allOk hw0 (igt_display_commit_pipes hw0
      igt_commit_style.COMMIT_LEGACY egDisplayC7).1 ∧
    ∀ c ∈ (igt_display_commit_pipes hw0
      igt_commit_style.COMMIT_LEGACY egDisplayC7).1,
      isSetPlaneCall c = false :=
  C7_legacy_overlay_unsupported hw0 egDisplayC7 (fun c => rfl) (by decide)
    ⟨0, egPipeC7, rfl, by decide, egOverlayDirty, by decide, rfl, rfl⟩

/-- witness for C8: set_rotation sets the dirty bit, and the universal
commit of the display holding the rotation-incapable dirty plane fails
with RotationUnsupported while the bit stays set. -/
theorem C8_witness :
    ((igt_plane_set_rotation egPrimaryClean
        igt_rotation_t.IGT_ROTATION_90).rotation_changed = true ∧
     (igt_plane_set_rotation egPrimaryClean
        igt_rotation_t.IGT_ROTATION_90).rotation_property =
       egPrimaryClean.rotation_property) ∧
    ((igt_display_commit_pipes hw0
        igt_commit_style.COMMIT_UNIVERSAL egDisplayC8).2.2 =
      some CommitError.RotationUnsupported ∧
    ∃ pp' ∈ (igt_display_commit_pipes hw0
        igt_commit_style.COMMIT_UNIVERSAL egDisplayC8).2.1.pipes,
      ∃ q' ∈ pp'.planes,
        q'.rotation_changed = true ∧ q'.rotation_property = 0) :=
  ⟨(C8_rotation_unsupported_keeps_dirty hw0 egDisplayC8).1 egPrimaryClean
      igt_rotation_t.IGT_ROTATION_90,
   (C8_rotation_unsupported_keeps_dirty hw0 egDisplayC8).2 (fun c => rfl)
      ⟨0, egPipeC8, rfl, by decide, egRotPlane, by decide, rfl, rfl⟩⟩

/-- witness for C10: a 2-second interval with a nanosecond borrow
evaluates to exactly the floored millisecond count. -/
theorem C10_witness :
    (ms_elapsed tsA tsB : Int) =
      ((NSEC_PER_SEC : Int) * (tsB.tv_sec - tsA.tv_sec) +
        (tsB.tv_nsec - tsA.tv_nsec)) / (USEC_PER_SEC : Int) :=
  C10_ms_elapsed_floor tsA tsB (by constructor <;> decide)
    (by constructor <;> decide) (Or.inl (by decide)) (by decide)

end IGT

